import Mathlib

/-!
# Verification of the toolbelt configuration resolution and merge engine

A shallow embedding of `toolbelt/config/loader.py` and
`toolbelt/config/includes.py` (configuration loading, include processing,
raw-data merging, typed-config merging, environment-variable overlay,
source discovery), together with theorems checking the specification's
claims about these functions.

Python dictionaries are modelled as association lists `List (String × α)`
with insertion-order semantics: `dictSet` replaces the value in place for
an existing key and appends a new key at the end, exactly as assignment on
a Python dict behaves.  YAML / raw configuration values are modelled by
the inductive type `RawValue`.  Fallible Python code is modelled with
`Except String`; an `Except.error` models a raised exception (the string
being the rendered exception text).
-/

namespace Toolbelt

/-! ## Python dict model -/

/-- First-match lookup, `d.get(k)` / `d[k]` on a Python dict
(keys are unique in any dict produced by Python, so first match is the
match). -/
def dictGet (d : List (String × α)) (k : String) : Option α :=
  match d with
  | [] => none
  | (k', v) :: rest => if k' = k then some v else dictGet rest k

/-- Membership test, `k in d` on a Python dict. -/
def dictContains (d : List (String × α)) (k : String) : Bool :=
  match d with
  | [] => false
  | (k', _) :: rest => if k' = k then true else dictContains rest k

/-- Assignment `d[k] = v` on a (copy of a) Python dict: replaces the
value in place when the key is present, appends at the end otherwise. -/
def dictSet (d : List (String × α)) (k : String) (v : α) : List (String × α) :=
  match d with
  | [] => [(k, v)]
  | (k', v') :: rest =>
      if k' = k then (k, v) :: rest else (k', v') :: dictSet rest k v

/-- `d.copy()` followed by `d.update(e)` on Python dicts: every entry of
`e` is assigned into `d` in order. -/
def dictUpdate (d e : List (String × α)) : List (String × α) :=
  e.foldl (fun acc p => dictSet acc p.1 p.2) d

/-- The dict comprehension dropping one key,
`{k: v for k, v in d.items() if k != bad}` (order preserving). -/
def dictErase (d : List (String × α)) (bad : String) : List (String × α) :=
  d.filter (fun p => p.1 ≠ bad)

/-- The keys of a dict, in insertion order. -/
def dictKeys (d : List (String × α)) : List String :=
  d.map Prod.fst

/-! ### Lemmas about the dict model -/

theorem dictKeys_nil : dictKeys ([] : List (String × α)) = [] := rfl

theorem dictKeys_cons (k : String) (v : α) (d : List (String × α)) :
    dictKeys ((k, v) :: d) = k :: dictKeys d := rfl

theorem mem_dictKeys_cons {k k' : String} {v : α} {d : List (String × α)} :
    k ∈ dictKeys ((k', v) :: d) ↔ k = k' ∨ k ∈ dictKeys d := by
  rw [dictKeys_cons, List.mem_cons]

theorem dictGet_eq_none_of_not_mem {d : List (String × α)} {k : String}
    (h : k ∉ dictKeys d) : dictGet d k = none := by
  induction d with
  | nil => rfl
  | cons p rest ih =>
      obtain ⟨k', v⟩ := p
      rw [mem_dictKeys_cons] at h
      push_neg at h
      simp [dictGet, Ne.symm h.1, ih h.2]

theorem dictGet_set_self (d : List (String × α)) (k : String) (v : α) :
    dictGet (dictSet d k v) k = some v := by
  induction d with
  | nil => simp [dictSet, dictGet]
  | cons p rest ih =>
      obtain ⟨k', v'⟩ := p
      by_cases hk : k' = k
      · simp [dictSet, hk, dictGet]
      · simp [dictSet, hk, dictGet, ih]

theorem dictGet_set_ne (d : List (String × α)) {k k' : String} (v : α)
    (h : k' ≠ k) : dictGet (dictSet d k' v) k = dictGet d k := by
  induction d with
  | nil => simp [dictSet, dictGet, h]
  | cons p rest ih =>
      obtain ⟨k'', v''⟩ := p
      by_cases hk : k'' = k'
      · subst hk
        simp [dictSet, dictGet, h]
      · simp only [dictSet, if_neg hk]
        by_cases hk2 : k'' = k
        · simp [dictGet, hk2]
        · simp [dictGet, hk2, ih]

theorem dictKeys_set_of_mem {d : List (String × α)} {k : String} (v : α)
    (h : k ∈ dictKeys d) : dictKeys (dictSet d k v) = dictKeys d := by
  induction d with
  | nil => simp [dictKeys_nil] at h
  | cons p rest ih =>
      obtain ⟨k', v'⟩ := p
      by_cases hk : k' = k
      · simp [dictSet, hk, dictKeys_cons]
      · rw [mem_dictKeys_cons] at h
        have h2 : k ∈ dictKeys rest := h.resolve_left (fun he => hk he.symm)
        simp only [dictSet, if_neg hk, dictKeys_cons, ih h2]

theorem dictKeys_set_of_not_mem {d : List (String × α)} {k : String} (v : α)
    (h : k ∉ dictKeys d) : dictKeys (dictSet d k v) = dictKeys d ++ [k] := by
  induction d with
  | nil => simp [dictSet, dictKeys_cons, dictKeys_nil]
  | cons p rest ih =>
      obtain ⟨k', v'⟩ := p
      rw [mem_dictKeys_cons] at h
      push_neg at h
      simp only [dictSet, if_neg (Ne.symm h.1), dictKeys_cons, ih h.2,
        List.cons_append]

theorem dictKeys_set_nodup {d : List (String × α)} {k : String} (v : α)
    (h : (dictKeys d).Nodup) : (dictKeys (dictSet d k v)).Nodup := by
  by_cases hm : k ∈ dictKeys d
  · rwa [dictKeys_set_of_mem v hm]
  · rw [dictKeys_set_of_not_mem v hm]
    simp [List.nodup_append, h, hm]

theorem dictKeys_update_nodup {d e : List (String × α)}
    (h : (dictKeys d).Nodup) : (dictKeys (dictUpdate d e)).Nodup := by
  induction e generalizing d with
  | nil => exact h
  | cons p rest ih =>
      exact ih (dictKeys_set_nodup p.2 h)

/-- Lookup after a Python dict update: the override's binding wins when
present (the override dict has unique keys, as every Python dict does). -/
theorem dictGet_update (d e : List (String × α)) (k : String)
    (he : (dictKeys e).Nodup) :
    dictGet (dictUpdate d e) k = (dictGet e k).or (dictGet d k) := by
  induction e generalizing d with
  | nil => simp [dictUpdate, dictGet]
  | cons p rest ih =>
      obtain ⟨k', v'⟩ := p
      simp [dictKeys] at he
      have hrec := ih (dictSet d k' v') he.2
      by_cases hk : k' = k
      · subst hk
        have hnone : dictGet rest k' = none :=
          dictGet_eq_none_of_not_mem (by simpa [dictKeys] using he.1)
        simp only [dictUpdate, List.foldl_cons] at hrec ⊢
        rw [hrec, hnone]
        simp [dictGet, dictGet_set_self]
      · simp only [dictUpdate, List.foldl_cons] at hrec ⊢
        rw [hrec]
        simp [dictGet, hk, dictGet_set_ne d v' hk]

theorem dictErase_cons (k' : String) (v' : α) (d : List (String × α))
    (bad : String) :
    dictErase ((k', v') :: d) bad =
      if k' = bad then dictErase d bad else (k', v') :: dictErase d bad := by
  by_cases hb : k' = bad
  · simp [dictErase, hb]
  · simp [dictErase, hb]

theorem dictGet_erase (d : List (String × α)) (bad k : String) :
    dictGet (dictErase d bad) k =
      if k = bad then none else dictGet d k := by
  induction d with
  | nil => simp [dictErase, dictGet]
  | cons p rest ih =>
      obtain ⟨k', v'⟩ := p
      rw [dictErase_cons]
      by_cases hb : k' = bad
      · subst hb
        rw [if_pos rfl, ih]
        by_cases hk : k = k'
        · simp [hk]
        · simp [hk, dictGet, Ne.symm hk]
      · rw [if_neg hb]
        by_cases hk : k' = k
        · subst hk
          simp [dictGet, hb]
        · simp [dictGet, hk, ih]

theorem dictContains_iff (d : List (String × α)) (k : String) :
    dictContains d k = true ↔ k ∈ dictKeys d := by
  induction d with
  | nil => simp [dictContains, dictKeys_nil]
  | cons p rest ih =>
      obtain ⟨k', v'⟩ := p
      rw [mem_dictKeys_cons]
      by_cases hk : k' = k
      · simp [dictContains, hk]
      · simp [dictContains, hk, ih, Ne.symm hk]

theorem dictGet_isSome_iff (d : List (String × α)) (k : String) :
    (dictGet d k).isSome = true ↔ k ∈ dictKeys d := by
  induction d with
  | nil => simp [dictGet, dictKeys_nil]
  | cons p rest ih =>
      obtain ⟨k', v'⟩ := p
      rw [mem_dictKeys_cons]
      by_cases hk : k' = k
      · simp [dictGet, hk]
      · simp [dictGet, hk, ih, Ne.symm hk]

/-! ## Raw configuration values

The dynamic values that `yaml.safe_load` (or a Python config module's
`config` dict) can hold, as far as the configuration schema goes. -/

inductive RawValue where
  | vNull : RawValue
  | vBool : Bool → RawValue
  | vStr : String → RawValue
  | vList : List RawValue → RawValue
  | vDict : List (String × RawValue) → RawValue

/-- Raw configuration data: a parsed top-level YAML mapping. -/
abbrev RawDict := List (String × RawValue)

/-! ## Typed configuration model

Modelled from the spec: `toolbelt/config/models.py` is not part of the
sources at hand (only its callers are), so the typed data model below
follows the spec's section 3 field-for-field (`ToolConfig`,
`ProfileConfig`, `ToolbeltConfig` with the documented defaults).
`model_copy(update=...)` on these frozen-per-merge objects is a plain
structure update. -/

inductive FileHandlingMode where
  | per_file : FileHandlingMode
  | batch : FileHandlingMode
  | no_target : FileHandlingMode
  deriving DecidableEq

/-- Modelled from the spec: one invocable tool (spec section 3,
`ToolConfig` of the absent `models.py`). -/
structure ToolConfig where
  name : String
  command : String
  args : List String := []
  description : Option String := none
  file_handling_mode : FileHandlingMode := .per_file
  default_target : Option String := none
  output_to_file : Bool := false
  working_dir : Option String := none
  ignore_files : List String := [".gitignore"]
  extensions : Option (List String) := none
  deriving DecidableEq

/-- Modelled from the spec: a named grouping of file-matching rules and
tool lists (spec section 3, `ProfileConfig` of the absent `models.py`). -/
structure ProfileConfig where
  name : String
  extensions : List String := []
  check_tools : List ToolConfig := []
  format_tools : List ToolConfig := []
  exclude_patterns : List String := []
  ignore_files : List String := [".gitignore"]
  deriving DecidableEq

/-- Modelled from the spec: the root aggregate (spec section 3,
`ToolbeltConfig` of the absent `models.py`).  `profiles` is a mapping
name to profile, modelled as a Python dict. -/
structure ToolbeltConfig where
  sources : List String := []
  profiles : List (String × ProfileConfig) := []
  global_exclude_patterns : List String := []
  -- the source calls this field `variables`; that word is reserved in Lean
  vars : List (String × String) := []
  deriving DecidableEq

/-! ## `merge_configs` (loader.py lines 285-333)

Typed merge of two `ToolbeltConfig` objects with override precedence.
Python's `a or b` on two list fields keeps `a` when it is non-empty and
falls back to `b` otherwise (an empty list is falsy). -/

/-- Python `a or b` for list-typed fields: first non-empty wins. -/
def listOrElse (a b : List α) : List α :=
  if a.isEmpty then b else a

/-- One iteration of the profile-merge loop in `merge_configs`: handle
one `(profile_name, override_profile)` item of `override.profiles`. -/
def mergeProfileStep (acc : List (String × ProfileConfig))
    (item : String × ProfileConfig) : List (String × ProfileConfig) :=
  match dictGet acc item.1 with
  | some base_profile =>
      dictSet acc item.1
        { base_profile with
          exclude_patterns :=
            listOrElse item.2.exclude_patterns base_profile.exclude_patterns
          ignore_files :=
            listOrElse item.2.ignore_files base_profile.ignore_files
          check_tools :=
            listOrElse item.2.check_tools base_profile.check_tools
          format_tools :=
            listOrElse item.2.format_tools base_profile.format_tools
          extensions :=
            listOrElse item.2.extensions base_profile.extensions }
  | none => dictSet acc item.1 item.2

/-- `merge_configs(base, override)` from `loader.py`: merge two typed
configs, override taking precedence, producing a new config. -/
def merge_configs (base override : ToolbeltConfig) : ToolbeltConfig :=
  { sources := base.sources ++ override.sources
    profiles := override.profiles.foldl mergeProfileStep base.profiles
    global_exclude_patterns :=
      base.global_exclude_patterns ++ override.global_exclude_patterns
    vars := dictUpdate base.vars override.vars }

/-! ### Lemmas for the profile-merge fold -/

theorem mergeProfileStep_get_ne (acc : List (String × ProfileConfig))
    (item : String × ProfileConfig) {p : String} (h : item.1 ≠ p) :
    dictGet (mergeProfileStep acc item) p = dictGet acc p := by
  unfold mergeProfileStep
  cases dictGet acc item.1 with
  | none => exact dictGet_set_ne acc _ h
  | some bp => exact dictGet_set_ne acc _ h

theorem foldl_mergeProfileStep_get_not_mem
    (entries : List (String × ProfileConfig))
    (acc : List (String × ProfileConfig)) {p : String}
    (h : p ∉ dictKeys entries) :
    dictGet (entries.foldl mergeProfileStep acc) p = dictGet acc p := by
  induction entries generalizing acc with
  | nil => rfl
  | cons item rest ih =>
      obtain ⟨q, op⟩ := item
      rw [mem_dictKeys_cons] at h
      push_neg at h
      rw [List.foldl_cons, ih _ h.2,
        mergeProfileStep_get_ne acc (q, op) (Ne.symm h.1)]

theorem dictKeys_append (a b : List (String × α)) :
    dictKeys (a ++ b) = dictKeys a ++ dictKeys b :=
  List.map_append _ _ _

theorem dictGet_eq_some_split {d : List (String × α)} {k : String} {v : α}
    (h : dictGet d k = some v) :
    ∃ l1 l2, d = l1 ++ (k, v) :: l2 ∧ k ∉ dictKeys l1 := by
  induction d with
  | nil => simp [dictGet] at h
  | cons p rest ih =>
      obtain ⟨k', v'⟩ := p
      by_cases hk : k' = k
      · subst hk
        simp [dictGet] at h
        exact ⟨[], rest, by simp [h], by simp [dictKeys_nil]⟩
      · simp only [dictGet, if_neg hk] at h
        obtain ⟨l1, l2, he, hn⟩ := ih h
        refine ⟨(k', v') :: l1, l2, by simp [he], ?_⟩
        rw [mem_dictKeys_cons]
        push_neg
        exact ⟨Ne.symm hk, hn⟩

theorem dictGet_none_not_mem {d : List (String × α)} {k : String}
    (h : dictGet d k = none) : k ∉ dictKeys d := by
  intro hm
  have hs := (dictGet_isSome_iff d k).2 hm
  rw [h] at hs
  simp at hs

theorem listOrElse_eq [DecidableEq α] (a b : List α) :
    listOrElse a b = if a = [] then b else a := by
  cases a <;> simp [listOrElse]

theorem mergeProfileStep_of_get_some {acc : List (String × ProfileConfig)}
    {item : String × ProfileConfig} {bp : ProfileConfig}
    (h : dictGet acc item.1 = some bp) :
    mergeProfileStep acc item =
      dictSet acc item.1
        { bp with
          exclude_patterns :=
            listOrElse item.2.exclude_patterns bp.exclude_patterns
          ignore_files := listOrElse item.2.ignore_files bp.ignore_files
          check_tools := listOrElse item.2.check_tools bp.check_tools
          format_tools := listOrElse item.2.format_tools bp.format_tools
          extensions := listOrElse item.2.extensions bp.extensions } := by
  unfold mergeProfileStep
  rw [h]

theorem mergeProfileStep_of_get_none {acc : List (String × ProfileConfig)}
    {item : String × ProfileConfig}
    (h : dictGet acc item.1 = none) :
    mergeProfileStep acc item = dictSet acc item.1 item.2 := by
  unfold mergeProfileStep
  rw [h]

/-- C1: `merge_configs` merges profiles by name: for a name present in
both configs, each of `exclude_patterns`, `ignore_files`, `check_tools`,
`format_tools` and `extensions` equals override's value when that value
is non-empty and base's value otherwise (an empty override list never
erases base's list); a profile present in only one of the two configs
passes through unchanged.  The key-uniqueness hypothesis reflects that
`profiles` is a Python dict. -/
theorem merge_configs_profile_semantics
    (base override : ToolbeltConfig) (p : String)
    (ho : (dictKeys override.profiles).Nodup) :
    (∀ bp op, dictGet base.profiles p = some bp →
       dictGet override.profiles p = some op →
       dictGet (merge_configs base override).profiles p = some
         { bp with
           exclude_patterns :=
             if op.exclude_patterns = [] then bp.exclude_patterns
             else op.exclude_patterns
           ignore_files :=
             if op.ignore_files = [] then bp.ignore_files
             else op.ignore_files
           check_tools :=
             if op.check_tools = [] then bp.check_tools else op.check_tools
           format_tools :=
             if op.format_tools = [] then bp.format_tools
             else op.format_tools
           extensions :=
             if op.extensions = [] then bp.extensions else op.extensions }) ∧
    (dictGet override.profiles p = none →
       dictGet (merge_configs base override).profiles p =
         dictGet base.profiles p) ∧
    (dictGet base.profiles p = none → ∀ op,
       dictGet override.profiles p = some op →
       dictGet (merge_configs base override).profiles p = some op) := by
  refine ⟨?_, ?_, ?_⟩
  · intro bp op hbp hop
    obtain ⟨l1, l2, he, hn1⟩ := dictGet_eq_some_split hop
    have hn2 : p ∉ dictKeys l2 := by
      rw [he, dictKeys_append, dictKeys_cons] at ho
      have := (List.nodup_append.mp ho).2.1
      exact (List.nodup_cons.mp this).1
    show dictGet (override.profiles.foldl mergeProfileStep base.profiles) p
        = _
    rw [he, List.foldl_append, List.foldl_cons,
      foldl_mergeProfileStep_get_not_mem l2 _ hn2]
    have hacc : dictGet (l1.foldl mergeProfileStep base.profiles) p
        = some bp := by
      rw [foldl_mergeProfileStep_get_not_mem l1 _ hn1, hbp]
    rw [mergeProfileStep_of_get_some hacc, dictGet_set_self]
    simp [listOrElse_eq]
  · intro hnone
    exact foldl_mergeProfileStep_get_not_mem _ _ (dictGet_none_not_mem hnone)
  · intro hbnone op hop
    obtain ⟨l1, l2, he, hn1⟩ := dictGet_eq_some_split hop
    have hn2 : p ∉ dictKeys l2 := by
      rw [he, dictKeys_append, dictKeys_cons] at ho
      have := (List.nodup_append.mp ho).2.1
      exact (List.nodup_cons.mp this).1
    show dictGet (override.profiles.foldl mergeProfileStep base.profiles) p
        = _
    rw [he, List.foldl_append, List.foldl_cons,
      foldl_mergeProfileStep_get_not_mem l2 _ hn2]
    have hacc : dictGet (l1.foldl mergeProfileStep base.profiles) p
        = none := by
      rw [foldl_mergeProfileStep_get_not_mem l1 _ hn1, hbnone]
    rw [mergeProfileStep_of_get_none hacc, dictGet_set_self]

/-- Witness for C1: merging a base with profile `python` whose
check tools are `[ruff]` and an override whose check tools are
`[flake8]` yields `[flake8]` wholesale; the remaining fields, empty in
the override, keep base's values (empty does not erase). -/
theorem merge_configs_profile_semantics_witness :
    dictGet
      (merge_configs
        { profiles := [("python",
            { name := "python"
              extensions := [".py"]
              check_tools := [{ name := "ruff", command := "ruff" }] })] }
        { profiles := [("python",
            { name := "python"
              check_tools := [{ name := "flake8", command := "flake8" }] })]
        }).profiles "python" = some
      { name := "python"
        extensions := [".py"]
        check_tools := [{ name := "flake8", command := "flake8" }] } := by
  have h :=
    (merge_configs_profile_semantics
      { profiles := [("python",
          { name := "python"
            extensions := [".py"]
            check_tools := [{ name := "ruff", command := "ruff" }] })] }
      { profiles := [("python",
          { name := "python"
            check_tools := [{ name := "flake8", command := "flake8" }] })] }
      "python" (by simp [dictKeys])).1
      { name := "python"
        extensions := [".py"]
        check_tools := [{ name := "ruff", command := "ruff" }] }
      { name := "python"
        check_tools := [{ name := "flake8", command := "flake8" }] }
      rfl rfl
  simpa using h

/-! ## `_merge_config_data` (loader.py lines 429-459 and the
word-for-word identical copy in includes.py lines 149-179)

Raw-data merge of two parsed config mappings.  Each file defines its own
copy; both are embedded separately so that their equivalence (claim C10)
is a theorem, not an assumption.  Python raises `TypeError` /
`AttributeError` when a special key holds a value of the wrong shape
(e.g. `.copy().update(...)` on a non-dict); those raises are modelled as
`Except.error`.  Python `+` also concatenates two strings, which the
`global_exclude_patterns` branch inherits; `dict.update` called with an
iterable of pairs (instead of a dict) is not representable in `RawDict`
and is modelled as an error. -/

/-- One iteration of the merge loop in `loader.py`'s
`_merge_config_data`: process one `(key, value)` item of
`override_data`. -/
def loaderMergeStep (merged : RawDict) (key : String) (value : RawValue) :
    Except String RawDict :=
  if key = "profiles" ∧ dictContains merged key = true then
    match dictGet merged key, value with
    | some (.vDict d1), .vDict d2 =>
        .ok (dictSet merged key (.vDict (dictUpdate d1 d2)))
    | _, _ => .error "TypeError"
  else if key = "global_exclude_patterns" ∧ dictContains merged key = true
  then
    match dictGet merged key, value with
    | some (.vList a), .vList b => .ok (dictSet merged key (.vList (a ++ b)))
    | some (.vStr a), .vStr b => .ok (dictSet merged key (.vStr (a ++ b)))
    | _, _ => .error "TypeError"
  else if key = "variables" ∧ dictContains merged key = true then
    match dictGet merged key, value with
    | some (.vDict d1), .vDict d2 =>
        .ok (dictSet merged key (.vDict (dictUpdate d1 d2)))
    | _, _ => .error "TypeError"
  else .ok (dictSet merged key value)

/-- The `for key, value in override_data.items()` loop of `loader.py`'s
`_merge_config_data`. -/
def loaderMergeLoop (merged : RawDict) :
    List (String × RawValue) → Except String RawDict
  | [] => .ok merged
  | (k, v) :: rest =>
      match loaderMergeStep merged k v with
      | .error e => .error e
      | .ok m => loaderMergeLoop m rest

/-- `_merge_config_data(base_data, override_data)` from `loader.py`. -/
def loaderMergeConfigData (base_data override_data : RawDict) :
    Except String RawDict :=
  loaderMergeLoop base_data override_data

/-- One iteration of the merge loop in `includes.py`'s
`_merge_config_data` (same text as the loader.py copy). -/
def includesMergeStep (merged : RawDict) (key : String) (value : RawValue) :
    Except String RawDict :=
  if key = "profiles" ∧ dictContains merged key = true then
    match dictGet merged key, value with
    | some (.vDict d1), .vDict d2 =>
        .ok (dictSet merged key (.vDict (dictUpdate d1 d2)))
    | _, _ => .error "TypeError"
  else if key = "global_exclude_patterns" ∧ dictContains merged key = true
  then
    match dictGet merged key, value with
    | some (.vList a), .vList b => .ok (dictSet merged key (.vList (a ++ b)))
    | some (.vStr a), .vStr b => .ok (dictSet merged key (.vStr (a ++ b)))
    | _, _ => .error "TypeError"
  else if key = "variables" ∧ dictContains merged key = true then
    match dictGet merged key, value with
    | some (.vDict d1), .vDict d2 =>
        .ok (dictSet merged key (.vDict (dictUpdate d1 d2)))
    | _, _ => .error "TypeError"
  else .ok (dictSet merged key value)

/-- The merge loop of `includes.py`'s `_merge_config_data`. -/
def includesMergeLoop (merged : RawDict) :
    List (String × RawValue) → Except String RawDict
  | [] => .ok merged
  | (k, v) :: rest =>
      match includesMergeStep merged k v with
      | .error e => .error e
      | .ok m => includesMergeLoop m rest

/-- `_merge_config_data(base_data, override_data)` from `includes.py`. -/
def includesMergeConfigData (base_data override_data : RawDict) :
    Except String RawDict :=
  includesMergeLoop base_data override_data

/-! ### Lemmas for the raw-data merge -/

theorem dictContains_of_get_some {d : List (String × α)} {k : String}
    {v : α} (h : dictGet d k = some v) : dictContains d k = true := by
  rw [dictContains_iff]
  exact (dictGet_isSome_iff d k).1 (by simp [h])

theorem loaderMergeStep_get_ne {merged : RawDict} {key : String}
    {value : RawValue} {m : RawDict}
    (h : loaderMergeStep merged key value = .ok m) {q : String}
    (hq : q ≠ key) : dictGet m q = dictGet merged q := by
  unfold loaderMergeStep at h
  repeat' split at h
  all_goals
    first
    | exact Except.noConfusion h
    | (injection h with h
       subst h
       exact dictGet_set_ne merged _ (Ne.symm hq))

theorem loaderMergeLoop_append (merged : RawDict)
    (a b : List (String × RawValue)) :
    loaderMergeLoop merged (a ++ b) =
      match loaderMergeLoop merged a with
      | .error e => .error e
      | .ok m => loaderMergeLoop m b := by
  induction a generalizing merged with
  | nil => simp [loaderMergeLoop]
  | cons p rest ih =>
      obtain ⟨k, v⟩ := p
      simp only [List.cons_append, loaderMergeLoop]
      cases loaderMergeStep merged k v with
      | error e => rfl
      | ok m => exact ih m

theorem loaderMergeLoop_get_not_mem {entries : List (String × RawValue)}
    {merged m : RawDict} {k : String}
    (hk : k ∉ dictKeys entries)
    (h : loaderMergeLoop merged entries = .ok m) :
    dictGet m k = dictGet merged k := by
  induction entries generalizing merged with
  | nil =>
      simp only [loaderMergeLoop] at h
      injection h with h
      subst h
      rfl
  | cons p rest ih =>
      obtain ⟨q, v⟩ := p
      rw [mem_dictKeys_cons] at hk
      push_neg at hk
      simp only [loaderMergeLoop] at h
      cases hs : loaderMergeStep merged q v with
      | error e => rw [hs] at h; exact Except.noConfusion h
      | ok m1 =>
          rw [hs] at h
          rw [ih hk.2 h, loaderMergeStep_get_ne hs hk.1]

/-- Decomposing a successful raw merge at one override key: the key's
single loop iteration acts on an accumulator that still has base's value
at that key, and no later iteration disturbs the key again. -/
theorem loaderMerge_decompose {base override m : RawDict} {k : String}
    {v : RawValue}
    (hno : (dictKeys override).Nodup)
    (hm : loaderMergeConfigData base override = .ok m)
    (hv : dictGet override k = some v) :
    ∃ m1 m2, dictGet m1 k = dictGet base k ∧
      loaderMergeStep m1 k v = .ok m2 ∧ dictGet m k = dictGet m2 k := by
  obtain ⟨l1, l2, he, hn1⟩ := dictGet_eq_some_split hv
  have hn2 : k ∉ dictKeys l2 := by
    rw [he, dictKeys_append, dictKeys_cons] at hno
    have := (List.nodup_append.mp hno).2.1
    exact (List.nodup_cons.mp this).1
  unfold loaderMergeConfigData at hm
  rw [he, loaderMergeLoop_append] at hm
  cases h1 : loaderMergeLoop base l1 with
  | error e => rw [h1] at hm; exact Except.noConfusion hm
  | ok m1 =>
      rw [h1] at hm
      simp only [loaderMergeLoop] at hm
      cases h2 : loaderMergeStep m1 k v with
      | error e => rw [h2] at hm; exact Except.noConfusion hm
      | ok m2 =>
          rw [h2] at hm
          exact ⟨m1, m2, loaderMergeLoop_get_not_mem hn1 h1, h2,
            loaderMergeLoop_get_not_mem hn2 hm⟩

/-- C2: a successful raw-data merge yields a mapping in which the
`profiles` sub-mappings are shallow-merged by name (override replacing
base wholesale on a colliding name), `global_exclude_patterns` is base's
list followed by override's list, `variables` is a shallow merge with
override winning on key collision, and every other key present in
override replaces the same key in base.  Key-uniqueness hypotheses
reflect that these are Python dicts. -/
theorem merge_config_data_semantics
    (base override m : RawDict)
    (hno : (dictKeys override).Nodup)
    (hm : loaderMergeConfigData base override = .ok m) :
    (∀ d1 d2, dictGet base "profiles" = some (.vDict d1) →
       dictGet override "profiles" = some (.vDict d2) →
       dictGet m "profiles" = some (.vDict (dictUpdate d1 d2)) ∧
       ((dictKeys d2).Nodup → ∀ q,
          dictGet (dictUpdate d1 d2) q =
            (dictGet d2 q).or (dictGet d1 q))) ∧
    (∀ a b, dictGet base "global_exclude_patterns" = some (.vList a) →
       dictGet override "global_exclude_patterns" = some (.vList b) →
       dictGet m "global_exclude_patterns" = some (.vList (a ++ b))) ∧
    (∀ d1 d2, dictGet base "variables" = some (.vDict d1) →
       dictGet override "variables" = some (.vDict d2) →
       dictGet m "variables" = some (.vDict (dictUpdate d1 d2)) ∧
       ((dictKeys d2).Nodup → ∀ q,
          dictGet (dictUpdate d1 d2) q =
            (dictGet d2 q).or (dictGet d1 q))) ∧
    (∀ k v, k ≠ "profiles" → k ≠ "global_exclude_patterns" →
       k ≠ "variables" → dictGet override k = some v →
       dictGet m k = some v) := by
  refine ⟨?_, ?_, ?_, ?_⟩
  · intro d1 d2 h1 h2
    obtain ⟨m1, m2, hb1, hstep, hmk⟩ := loaderMerge_decompose hno hm h2
    have hg1 : dictGet m1 "profiles" = some (.vDict d1) := by rw [hb1, h1]
    have hc : dictContains m1 "profiles" = true := dictContains_of_get_some hg1
    unfold loaderMergeStep at hstep
    rw [if_pos ⟨rfl, hc⟩, hg1] at hstep
    simp only [] at hstep
    injection hstep with hstep
    refine ⟨?_, fun hd2 q => dictGet_update d1 d2 q hd2⟩
    rw [hmk, ← hstep, dictGet_set_self]
  · intro a b h1 h2
    obtain ⟨m1, m2, hb1, hstep, hmk⟩ := loaderMerge_decompose hno hm h2
    have hg1 : dictGet m1 "global_exclude_patterns" = some (.vList a) := by
      rw [hb1, h1]
    have hc : dictContains m1 "global_exclude_patterns" = true :=
      dictContains_of_get_some hg1
    unfold loaderMergeStep at hstep
    rw [if_neg (by simp), if_pos ⟨rfl, hc⟩, hg1] at hstep
    simp only [] at hstep
    injection hstep with hstep
    rw [hmk, ← hstep, dictGet_set_self]
  · intro d1 d2 h1 h2
    obtain ⟨m1, m2, hb1, hstep, hmk⟩ := loaderMerge_decompose hno hm h2
    have hg1 : dictGet m1 "variables" = some (.vDict d1) := by rw [hb1, h1]
    have hc : dictContains m1 "variables" = true := dictContains_of_get_some hg1
    unfold loaderMergeStep at hstep
    rw [if_neg (by simp), if_neg (by simp), if_pos ⟨rfl, hc⟩, hg1] at hstep
    simp only [] at hstep
    injection hstep with hstep
    refine ⟨?_, fun hd2 q => dictGet_update d1 d2 q hd2⟩
    rw [hmk, ← hstep, dictGet_set_self]
  · intro k v hk1 hk2 hk3 hv
    obtain ⟨m1, m2, hb1, hstep, hmk⟩ := loaderMerge_decompose hno hm hv
    unfold loaderMergeStep at hstep
    rw [if_neg (by simp [hk1]), if_neg (by simp [hk2]),
      if_neg (by simp [hk3])] at hstep
    injection hstep with hstep
    rw [hmk, ← hstep, dictGet_set_self]

/-- Witness for C2 at a concrete pair of raw mappings: `variables` is
shallow-merged with override winning, `global_exclude_patterns` is
concatenated, and the ordinary key `other` takes override's value. -/
theorem merge_config_data_semantics_witness :
    dictGet
      [("variables", RawValue.vDict [("x", RawValue.vStr "2")]),
       ("global_exclude_patterns",
         RawValue.vList [RawValue.vStr "a", RawValue.vStr "a"]),
       ("other", RawValue.vStr "o2")] "other" = some (.vStr "o2") ∧
    dictGet
      [("variables", RawValue.vDict [("x", RawValue.vStr "2")]),
       ("global_exclude_patterns",
         RawValue.vList [RawValue.vStr "a", RawValue.vStr "a"]),
       ("other", RawValue.vStr "o2")] "global_exclude_patterns" =
      some (.vList [.vStr "a", .vStr "a"]) := by
  have h := merge_config_data_semantics
    [("variables", RawValue.vDict [("x", RawValue.vStr "1")]),
     ("global_exclude_patterns", RawValue.vList [RawValue.vStr "a"]),
     ("other", RawValue.vStr "o1")]
    [("variables", RawValue.vDict [("x", RawValue.vStr "2")]),
     ("global_exclude_patterns", RawValue.vList [RawValue.vStr "a"]),
     ("other", RawValue.vStr "o2")]
    [("variables", RawValue.vDict [("x", RawValue.vStr "2")]),
     ("global_exclude_patterns",
       RawValue.vList [RawValue.vStr "a", RawValue.vStr "a"]),
     ("other", RawValue.vStr "o2")]
    (by simp [dictKeys]) rfl
  exact ⟨h.2.2.2 "other" (.vStr "o2") (by decide) (by decide) (by decide)
      rfl,
    h.2.1 [.vStr "a"] [.vStr "a"] rfl rfl⟩

/-! ## Paths

Paths are modelled as the strings `str(Path(...))` produces.  `Path.cwd`
relative handling: the directory `.` is written `""` here, so that
`pathJoin "" "x" = "x"` matches `str(Path(".") / "x") = "x"`. -/

/-- Python `s.startswith(pre)` (Lean's `String.startsWith`, modelled
over the character lists so that proofs can evaluate it on concrete
strings). -/
def strStartsWith (s pre : String) : Bool :=
  pre.data.isPrefixOf s.data

/-- `str(base / child)` for a relative `child`. -/
def pathJoin (base child : String) : String :=
  if base = "" then child else base ++ "/" ++ child

/-- `str(Path(p).parent)`: the characters before the last `/`
(the root path `/x` edge case, whose parent is `/`, is not needed and not
modelled). -/
def pathParent (p : String) : String :=
  String.mk (((p.data.reverse.dropWhile (fun c => c ≠ '/')).drop 1).reverse)

/-- The extension of one path component: the characters after its last
dot, with the dot; empty when there is no dot, when the name ends with
its only dot, or when the name starts with its only dot (hidden
files). -/
def suffixOfName (name : List Char) : String :=
  let afterDot := name.reverse.takeWhile (fun c => c ≠ '.')
  if afterDot.length < name.length ∧ afterDot.length + 1 < name.length ∧
      afterDot.length ≠ 0 then
    String.mk ('.' :: afterDot.reverse)
  else ""

/-- `Path(p).suffix`: the extension of the last path component. -/
def pathSuffix (p : String) : String :=
  suffixOfName ((p.data.reverse.takeWhile (fun c => c ≠ '/')).reverse)

/-! ## The world a configuration load runs against

All ambient state the loader touches, passed explicitly. -/

/-- The filesystem and process environment visible to a load.

`fs` maps an existing config-file path to the outcome of raw-loading it:
`.ok data` models a successful `yaml.safe_load` producing a mapping (or,
for a `.py` file, a successful module load whose extracted `config`
attribute dumps to that mapping); `.error e` models the loader raising
(malformed YAML, missing `config` attribute, and so on).

`pkgResolve` — Modelled from the spec: `resolve_package_resource`
(package `toolbelt.package_resources`, absent from the sources at hand)
maps an `@package:path` reference to an absolute path; per spec section
4.2 its failures propagate as a resolution failure that the caller
swallows, so failures are modelled as `none`.

`pyprojectToolbelt` — the parsed `[tool.toolbelt]` section of
`cwd/pyproject.toml`; `none` models a missing, unreadable or malformed
manifest or an absent section (`load_pyproject_toml` maps all of those
to `None`). -/
structure World where
  fs : List (String × Except String RawDict) := []
  extraFiles : List String := []
  env : List (String × String) := []
  pkgResolve : String → Option String := fun _ => none
  home : String := "/home/user"
  pyprojectToolbelt : Option RawDict := none

/-- `Path(p).exists()`. -/
def pathExists (w : World) (p : String) : Bool :=
  (dictGet w.fs p).isSome || w.extraFiles.any (fun q => q = p)

/-- `resolve_config_reference(config_ref, base_path)` (defined
identically in `loader.py` lines 138-171 and `includes.py` lines
16-49): classify the reference and turn it into a path. -/
def resolve_config_reference (w : World) (config_ref : String)
    (base_path : String) : Option String :=
  if strStartsWith config_ref "@" then w.pkgResolve config_ref
  else if strStartsWith config_ref "~/" then
    some (w.home ++ config_ref.drop 1)
  else if strStartsWith config_ref "/" then some config_ref
  else some (pathJoin base_path config_ref)

/-! ## Parser/Validator

Modelled from the spec: `parse_toolbelt_config` lives in
`toolbelt/config/parser.py`, which is not among the sources at hand, so
the functions below follow the spec's sections 4.4 and 6: validate
required fields (`name`, `command` for tools), coerce missing optional
fields to the documented defaults, normalize every profile extension to
begin with `.`, and produce a `ToolbeltConfig` with an empty `sources`
list. -/

def parseStringList : List RawValue → Except String (List String)
  | [] => .ok []
  | .vStr s :: rest => (parseStringList rest).map (s :: ·)
  | _ :: _ => .error "validation error: expected a string"

/-- Modelled from the spec: prefix a missing leading dot. -/
def normalizeExtension (s : String) : String :=
  if strStartsWith s "." then s else "." ++ s

def parseFileHandlingMode (s : String) : Except String FileHandlingMode :=
  if s = "per_file" then .ok .per_file
  else if s = "batch" then .ok .batch
  else if s = "no_target" then .ok .no_target
  else .error "validation error: file_handling_mode"

/-- Modelled from the spec: parse one tool mapping (spec section 6 lists
the recognized keys and defaults; `name` and `command` are required
non-empty strings). -/
def parseTool (v : RawValue) : Except String ToolConfig :=
  match v with
  | .vDict d =>
      match dictGet d "name", dictGet d "command" with
      | some (.vStr n), some (.vStr c) =>
          if n = "" ∨ c = "" then
            .error "validation error: empty name or command"
          else do
            let args ← match dictGet d "args" with
              | none => .ok []
              | some (.vList xs) => parseStringList xs
              | some _ => .error "validation error: args"
            let description ← match dictGet d "description" with
              | none => .ok none
              | some (.vStr s) => .ok (some s)
              | some _ => .error "validation error: description"
            let mode ← match dictGet d "file_handling_mode" with
              | none => .ok FileHandlingMode.per_file
              | some (.vStr s) => parseFileHandlingMode s
              | some _ => .error "validation error: file_handling_mode"
            let default_target ← match dictGet d "default_target" with
              | none => .ok none
              | some (.vStr s) => .ok (some s)
              | some _ => .error "validation error: default_target"
            let output_to_file ← match dictGet d "output_to_file" with
              | none => .ok false
              | some (.vBool b) => .ok b
              | some _ => .error "validation error: output_to_file"
            let working_dir ← match dictGet d "working_dir" with
              | none => .ok none
              | some (.vStr s) => .ok (some s)
              | some _ => .error "validation error: working_dir"
            let ignore_files ← match dictGet d "ignore_files" with
              | none => .ok [".gitignore"]
              | some (.vList xs) => parseStringList xs
              | some _ => .error "validation error: ignore_files"
            let extensions ← match dictGet d "extensions" with
              | none => .ok none
              | some (.vList xs) => (parseStringList xs).map some
              | some _ => .error "validation error: extensions"
            .ok { name := n, command := c, args := args
                  description := description, file_handling_mode := mode
                  default_target := default_target
                  output_to_file := output_to_file
                  working_dir := working_dir, ignore_files := ignore_files
                  extensions := extensions }
      | _, _ => .error "validation error: name and command are required"
  | _ => .error "validation error: tool must be a mapping"

def parseTools : List RawValue → Except String (List ToolConfig)
  | [] => .ok []
  | v :: rest => do
      let t ← parseTool v
      let ts ← parseTools rest
      .ok (t :: ts)

/-- Modelled from the spec: parse one profile mapping. -/
def parseProfile (name : String) (v : RawValue) :
    Except String ProfileConfig :=
  match v with
  | .vDict d => do
      let exts ← match dictGet d "extensions" with
        | none => .ok []
        | some (.vList xs) =>
            (parseStringList xs).map (List.map normalizeExtension)
        | some _ => .error "validation error: extensions"
      let check_tools ← match dictGet d "check_tools" with
        | none => .ok []
        | some (.vList xs) => parseTools xs
        | some _ => .error "validation error: check_tools"
      let format_tools ← match dictGet d "format_tools" with
        | none => .ok []
        | some (.vList xs) => parseTools xs
        | some _ => .error "validation error: format_tools"
      let exclude_patterns ← match dictGet d "exclude_patterns" with
        | none => .ok []
        | some (.vList xs) => parseStringList xs
        | some _ => .error "validation error: exclude_patterns"
      let ignore_files ← match dictGet d "ignore_files" with
        | none => .ok [".gitignore"]
        | some (.vList xs) => parseStringList xs
        | some _ => .error "validation error: ignore_files"
      .ok { name := name, extensions := exts, check_tools := check_tools
            format_tools := format_tools
            exclude_patterns := exclude_patterns
            ignore_files := ignore_files }
  | _ => .error "validation error: profile must be a mapping"

def parseProfiles :
    List (String × RawValue) → Except String (List (String × ProfileConfig))
  | [] => .ok []
  | (n, v) :: rest => do
      let p ← parseProfile n v
      let ps ← parseProfiles rest
      .ok ((n, p) :: ps)

def parseVariables :
    List (String × RawValue) → Except String (List (String × String))
  | [] => .ok []
  | (n, .vStr s) :: rest => (parseVariables rest).map ((n, s) :: ·)
  | _ :: _ => .error "validation error: variables must map to strings"

/-- Modelled from the spec: `parse_toolbelt_config(raw)` of the absent
`parser.py` — convert fully-merged raw data into a typed config with an
empty `sources` list (spec section 4.4); unknown top-level keys (such as
a stripped `include`) are ignored. -/
def parse_toolbelt_config (raw : RawDict) : Except String ToolbeltConfig := do
  let profiles ← match dictGet raw "profiles" with
    | none => .ok []
    | some (.vDict d) => parseProfiles d
    | some _ => .error "validation error: profiles must be a mapping"
  let gep ← match dictGet raw "global_exclude_patterns" with
    | none => .ok []
    | some (.vList xs) => parseStringList xs
    | some _ => .error "validation error: global_exclude_patterns"
  let vars ← match dictGet raw "variables" with
    | none => .ok []
    | some (.vDict d) => parseVariables d
    | some _ => .error "validation error: variables must be a mapping"
  .ok { sources := [], profiles := profiles
        global_exclude_patterns := gep, vars := vars }

/-! ## `_process_includes` (loader.py lines 336-426) and
`process_includes` (includes.py lines 52-146)

The two copies are embedded separately (their texts are identical up
to import placement; claim C10 proves them equal).  The recursion is
fuel-indexed: real executions terminate because a recursive call only
happens on an existing file that is not yet in the in-progress set, so
along any branch the recursion depth is bounded by the number of files;
entry points pass `w.fs.length + 1` fuel, which therefore always
suffices.

Per-entry control flow mirrored from the source: a reference that fails
to resolve, a circular back-reference, a missing non-package file, an
unsupported suffix, a failed raw load, a nested processing error and a
failed merge are all skipped (the `try/except/continue`); the skip after
a failed merge still keeps the entry's contribution to `sources`,
because `sources.extend`/`append` run before `_merge_config_data` in the
source.  A non-string include entry raises `AttributeError` outside the
`try` and so aborts the whole call (`Except.error`); the in-progress set
is passed to the nested call as a copy with the resolved path added, and
the `finally: discard` restores the caller's set, so sibling entries see
the original set. -/

/-- `includes = data['include']; if not isinstance(includes, list):
includes = [includes]`. -/
def normalizeIncludes (v : RawValue) : List RawValue :=
  match v with
  | .vList xs => xs
  | other => [other]

/-- The `for include_ref in includes` loop of `loader.py`'s
`_process_includes`, parameterized by the recursive call `recurse`. -/
def loaderIncludeLoop (w : World)
    (recurse : RawDict → String → List String →
      Except String (RawDict × List String)) :
    List RawValue → String → List String → RawDict → List String →
      Except String (RawDict × List String)
  | [], _, _, merged, sources => .ok (merged, sources)
  | entry :: rest, base_path, processed, merged, sources =>
      match entry with
      | .vStr include_ref =>
          match resolve_config_reference w include_ref base_path with
          | none =>
              loaderIncludeLoop w recurse rest base_path processed merged
                sources
          | some resolved_path =>
              if processed.contains resolved_path then
                loaderIncludeLoop w recurse rest base_path processed merged
                  sources
              else if ¬ strStartsWith include_ref "@" = true ∧
                  pathExists w resolved_path = false then
                loaderIncludeLoop w recurse rest base_path processed merged
                  sources
              else if pathSuffix resolved_path = ".yaml" ∨
                  pathSuffix resolved_path = ".yml" ∨
                  pathSuffix resolved_path = ".py" then
                match dictGet w.fs resolved_path with
                | none =>
                    loaderIncludeLoop w recurse rest base_path processed
                      merged sources
                | some (.error _) =>
                    loaderIncludeLoop w recurse rest base_path processed
                      merged sources
                | some (.ok included_data) =>
                    match recurse included_data (pathParent resolved_path)
                        (resolved_path :: processed) with
                    | .error _ =>
                        loaderIncludeLoop w recurse rest base_path processed
                          merged sources
                    | .ok (nested, nestedSources) =>
                        let sources2 :=
                          sources ++ nestedSources ++ [resolved_path]
                        match loaderMergeConfigData merged nested with
                        | .error _ =>
                            loaderIncludeLoop w recurse rest base_path
                              processed merged sources2
                        | .ok m2 =>
                            loaderIncludeLoop w recurse rest base_path
                              processed m2 sources2
              else
                loaderIncludeLoop w recurse rest base_path processed merged
                  sources
      | _ => .error "AttributeError"

/-- `_process_includes(data, base_path, processed_sources)` from
`loader.py`. -/
def loaderProcessIncludes (w : World) :
    Nat → RawDict → String → List String →
      Except String (RawDict × List String)
  | 0, _, _, _ => .error "recursion limit exceeded"
  | fuel + 1, data, base_path, processed =>
      if dictContains data "include" = false then .ok (data, [])
      else
        loaderIncludeLoop w
          (fun d bp pr => loaderProcessIncludes w fuel d bp pr)
          (normalizeIncludes ((dictGet data "include").getD .vNull))
          base_path processed (dictErase data "include") []

/-- The `for include_ref in includes` loop of `includes.py`'s
`process_includes`, parameterized by the recursive call. -/
def includesIncludeLoop (w : World)
    (recurse : RawDict → String → List String →
      Except String (RawDict × List String)) :
    List RawValue → String → List String → RawDict → List String →
      Except String (RawDict × List String)
  | [], _, _, merged, sources => .ok (merged, sources)
  | entry :: rest, base_path, processed, merged, sources =>
      match entry with
      | .vStr include_ref =>
          match resolve_config_reference w include_ref base_path with
          | none =>
              includesIncludeLoop w recurse rest base_path processed merged
                sources
          | some resolved_path =>
              if processed.contains resolved_path then
                includesIncludeLoop w recurse rest base_path processed
                  merged sources
              else if ¬ strStartsWith include_ref "@" = true ∧
                  pathExists w resolved_path = false then
                includesIncludeLoop w recurse rest base_path processed
                  merged sources
              else if pathSuffix resolved_path = ".yaml" ∨
                  pathSuffix resolved_path = ".yml" ∨
                  pathSuffix resolved_path = ".py" then
                match dictGet w.fs resolved_path with
                | none =>
                    includesIncludeLoop w recurse rest base_path processed
                      merged sources
                | some (.error _) =>
                    includesIncludeLoop w recurse rest base_path processed
                      merged sources
                | some (.ok included_data) =>
                    match recurse included_data (pathParent resolved_path)
                        (resolved_path :: processed) with
                    | .error _ =>
                        includesIncludeLoop w recurse rest base_path
                          processed merged sources
                    | .ok (nested, nestedSources) =>
                        let sources2 :=
                          sources ++ nestedSources ++ [resolved_path]
                        match includesMergeConfigData merged nested with
                        | .error _ =>
                            includesIncludeLoop w recurse rest base_path
                              processed merged sources2
                        | .ok m2 =>
                            includesIncludeLoop w recurse rest base_path
                              processed m2 sources2
              else
                includesIncludeLoop w recurse rest base_path processed
                  merged sources
      | _ => .error "AttributeError"

/-- `process_includes(data, base_path, processed_sources)` from
`includes.py` (same text as the loader.py copy; the `.py` branch of the
two copies dispatches to `file_loaders._load_python_module` here versus
`loader._load_python_module` there — `file_loaders.py` is not among the
sources at hand and is Modelled from the spec as behaving identically,
which the shared `w.fs` raw-load outcome expresses). -/
def includesProcessIncludes (w : World) :
    Nat → RawDict → String → List String →
      Except String (RawDict × List String)
  | 0, _, _, _ => .error "recursion limit exceeded"
  | fuel + 1, data, base_path, processed =>
      if dictContains data "include" = false then .ok (data, [])
      else
        includesIncludeLoop w
          (fun d bp pr => includesProcessIncludes w fuel d bp pr)
          (normalizeIncludes ((dictGet data "include").getD .vNull))
          base_path processed (dictErase data "include") []

/-! ## Top-level loading (loader.py lines 22-264) -/

/-- An exception as the caller of a loader sees it: the rendered message
and the `raise ... from e` cause chain. -/
structure PyError where
  msg : String
  cause : Option String := none
  deriving DecidableEq

/-- `load_yaml_config(config_path)` from `loader.py` lines 34-60: open
and parse, process includes, parse the merged data, then append the
include sources and the file's own path to `sources`.  Any exception is
wrapped in an error whose message names the file and which carries the
original exception as its cause. -/
def load_yaml_config (w : World) (config_path : String) :
    Except PyError ToolbeltConfig :=
  let wrap : String → PyError := fun e =>
    { msg := "Error loading YAML config file " ++ config_path ++ "; " ++ e
      cause := some e }
  match dictGet w.fs config_path with
  | none => .error (wrap "FileNotFoundError")
  | some (.error e) => .error (wrap e)
  | some (.ok data) =>
      match loaderProcessIncludes w (w.fs.length + 1) data
          (pathParent config_path) [] with
      | .error e => .error (wrap e)
      | .ok (processed_data, include_sources) =>
          match parse_toolbelt_config processed_data with
          | .error e => .error (wrap e)
          | .ok config =>
              .ok { config with
                sources := config.sources ++ include_sources ++
                  [config_path] }

/-- `load_python_config(config_path)` from `loader.py` lines 93-125:
same pipeline as the YAML loader (the module load and `config`
extraction outcome is what `w.fs` records for a `.py` path), with the
Python-file error message. -/
def load_python_config (w : World) (config_path : String) :
    Except PyError ToolbeltConfig :=
  let wrap : String → PyError := fun e =>
    { msg := "Error loading Python config file " ++ config_path ++ ": " ++ e
      cause := some e }
  match dictGet w.fs config_path with
  | none => .error (wrap "FileNotFoundError")
  | some (.error e) => .error (wrap e)
  | some (.ok data) =>
      match loaderProcessIncludes w (w.fs.length + 1) data
          (pathParent config_path) [] with
      | .error e => .error (wrap e)
      | .ok (processed_data, include_sources) =>
          match parse_toolbelt_config processed_data with
          | .error e => .error (wrap e)
          | .ok config =>
              .ok { config with
                sources := config.sources ++ include_sources ++
                  [config_path] }

/-- `load_config_from_file(config_path)` from `loader.py` lines
128-135. -/
def load_config_from_file (w : World) (config_path : String) :
    Except PyError ToolbeltConfig :=
  if pathSuffix config_path = ".yaml" ∨ pathSuffix config_path = ".yml"
  then load_yaml_config w config_path
  else if pathSuffix config_path = ".py" then
    load_python_config w config_path
  else
    .error { msg := "Unsupported configuration file type: " ++
      pathSuffix config_path }

/-! ## Source discovery (loader.py lines 174-229) -/

/-- The allow-listed environment-variable name beginnings of
`get_env_variables_context` (loader.py line 30). -/
def allowedEnvNameStarts : List String :=
  ["TOOLBELT_", "TB_", "TBELT_", "CI_", "BUILD_"]

/-- `get_env_variables_context()` from `loader.py` lines 22-31: keep
exactly the environment variables whose name starts with an allow-listed
prefix string. -/
def get_env_variables_context (env : List (String × String)) :
    List (String × String) :=
  env.filter
    (fun p => allowedEnvNameStarts.any (fun s => strStartsWith p.1 s))

/-- The reference loop of `_load_from_pyproject_includes`: resolve each
declared reference, keep it when resolution succeeds and (for
non-package references) the file exists; resolution failures are caught
and skipped.  A non-string entry raises `AttributeError`, which the
`except (ValueError, ImportError, FileNotFoundError)` clause does not
catch. -/
def pyprojectRefLoop (w : World) (cwd : String) :
    List RawValue → Except String (List String)
  | [] => .ok []
  | .vStr config_ref :: rest =>
      let keep :=
        match resolve_config_reference w config_ref cwd with
        | some p =>
            if strStartsWith config_ref "@" || pathExists w p then [p]
            else []
        | none => []
      (pyprojectRefLoop w cwd rest).map (keep ++ ·)
  | _ :: _ => .error "AttributeError"

/-- `_load_from_pyproject_includes(cwd)` from `loader.py` lines 174-197:
the `[tool.toolbelt]` include list resolved against `cwd`.  An empty
section dict is falsy in Python, hence the emptiness test. -/
def loadFromPyprojectIncludes (w : World) (cwd : String) :
    Except String (List String) :=
  if pathExists w (pathJoin cwd "pyproject.toml") = false then .ok []
  else
    match w.pyprojectToolbelt with
    | none => .ok []
    | some tb =>
        if tb.isEmpty ∨ dictContains tb "include" = false then .ok []
        else
          match dictGet tb "include" with
          | some (.vList entries) => pyprojectRefLoop w cwd entries
          | _ => .error "TypeError"

/-- `_find_standalone_config(cwd)` from `loader.py` lines 200-206: the
first existing conventional file name, as a single-element list. -/
def findStandaloneConfig (w : World) (cwd : String) : List String :=
  if pathExists w (pathJoin cwd "toolbelt.yaml") then
    [pathJoin cwd "toolbelt.yaml"]
  else if pathExists w (pathJoin cwd "toolbelt.yml") then
    [pathJoin cwd "toolbelt.yml"]
  else if pathExists w (pathJoin cwd "toolbelt.py") then
    [pathJoin cwd "toolbelt.py"]
  else []

/-- `find_config_sources(config_path)` from `loader.py` lines
209-229. -/
def find_config_sources (w : World) (cwd : String)
    (config_path : Option String) : Except String (List String) :=
  match config_path with
  | some p => .ok (if pathExists w p then [p] else [])
  | none =>
      match loadFromPyprojectIncludes w cwd with
      | .error e => .error e
      | .ok sources =>
          .ok (if sources.isEmpty then findStandaloneConfig w cwd
            else sources)

/-! ## `load_config` (loader.py lines 232-264) -/

/-- The final environment overlay of `load_config` (lines 256-262):
when the filtered environment is non-empty, merge it over the
accumulated `variables` with the environment winning. -/
def applyEnvOverlay (env : List (String × String))
    (config : ToolbeltConfig) : ToolbeltConfig :=
  let env_variables := get_env_variables_context env
  if env_variables.isEmpty then config
  else { config with vars := dictUpdate config.vars env_variables }

/-- The `for source in sources[1:]` merge loop of `load_config`. -/
def loadMergeLoop (w : World) :
    ToolbeltConfig → List String → Except PyError ToolbeltConfig
  | config, [] => .ok config
  | config, src :: rest =>
      match load_config_from_file w src with
      | .error e => .error e
      | .ok override_config =>
          loadMergeLoop w (merge_configs config override_config) rest

/-- `load_config(config_paths)` from `loader.py` lines 232-264.
`defaultCfg` is `get_default_config()` — Modelled from the spec: the
built-in default configuration assembled from a packaged preset
(`defaults.py` is not among the sources at hand), passed in
explicitly. -/
def load_config (w : World) (cwd : String) (defaultCfg : ToolbeltConfig)
    (config_paths : Option (List String)) :
    Except PyError ToolbeltConfig :=
  let sourcesE : Except PyError (List String) :=
    match config_paths with
    | some ps => .ok ps
    | none =>
        match find_config_sources w cwd none with
        | .error e => .error { msg := e }
        | .ok ps => .ok ps
  match sourcesE with
  | .error e => .error e
  | .ok [] => .ok (applyEnvOverlay w.env defaultCfg)
  | .ok [single] =>
      match load_config_from_file w single with
      | .error e => .error e
      | .ok config => .ok (applyEnvOverlay w.env config)
  | .ok (first :: rest) =>
      match load_config_from_file w first with
      | .error e => .error e
      | .ok config =>
          match loadMergeLoop w config rest with
          | .error e => .error e
          | .ok config2 => .ok (applyEnvOverlay w.env config2)

/-! ## C10: the two include-processing implementations agree -/

theorem mergeStep_eq : @loaderMergeStep = @includesMergeStep := rfl

theorem mergeLoop_eq (entries : List (String × RawValue))
    (merged : RawDict) :
    loaderMergeLoop merged entries = includesMergeLoop merged entries := by
  induction entries generalizing merged with
  | nil => rfl
  | cons p rest ih =>
      obtain ⟨k, v⟩ := p
      simp only [loaderMergeLoop, includesMergeLoop, ← mergeStep_eq]
      cases loaderMergeStep merged k v with
      | error e => rfl
      | ok m => exact ih m

theorem mergeConfigData_eq (b o : RawDict) :
    loaderMergeConfigData b o = includesMergeConfigData b o :=
  mergeLoop_eq o b

theorem includeLoop_eq (w : World)
    (r1 r2 : RawDict → String → List String →
      Except String (RawDict × List String))
    (hr : ∀ d bp pr, r1 d bp pr = r2 d bp pr) :
    ∀ entries base_path processed merged sources,
      loaderIncludeLoop w r1 entries base_path processed merged sources =
        includesIncludeLoop w r2 entries base_path processed merged
          sources := by
  intro entries
  induction entries with
  | nil => intro _ _ _ _; rfl
  | cons entry rest ih =>
      intro base_path processed merged sources
      cases entry with
      | vNull => rfl
      | vBool b => rfl
      | vList xs => rfl
      | vDict d => rfl
      | vStr include_ref =>
          simp only [loaderIncludeLoop, includesIncludeLoop]
          cases resolve_config_reference w include_ref base_path with
          | none => exact ih _ _ _ _
          | some resolved_path =>
              by_cases h1 : processed.contains resolved_path
              · simp only [if_pos h1]
                exact ih _ _ _ _
              · simp only [if_neg h1]
                by_cases h2 : ¬ strStartsWith include_ref "@" = true ∧
                    pathExists w resolved_path = false
                · simp only [if_pos h2]
                  exact ih _ _ _ _
                · simp only [if_neg h2]
                  by_cases h3 : pathSuffix resolved_path = ".yaml" ∨
                      pathSuffix resolved_path = ".yml" ∨
                      pathSuffix resolved_path = ".py"
                  · simp only [if_pos h3]
                    cases dictGet w.fs resolved_path with
                    | none => exact ih _ _ _ _
                    | some outcome =>
                        cases outcome with
                        | error e => exact ih _ _ _ _
                        | ok included_data =>
                            simp only []
                            rw [hr included_data (pathParent resolved_path)
                              (resolved_path :: processed)]
                            cases r2 included_data
                                (pathParent resolved_path)
                                (resolved_path :: processed) with
                            | error e => exact ih _ _ _ _
                            | ok pr =>
                                obtain ⟨nested, nestedSources⟩ := pr
                                simp only [mergeConfigData_eq merged nested]
                                cases includesMergeConfigData merged nested
                                    with
                                | error e => exact ih _ _ _ _
                                | ok m2 => exact ih _ _ _ _
                  · simp only [if_neg h3]
                    exact ih _ _ _ _

theorem processIncludes_eq (w : World) :
    ∀ fuel data base_path processed,
      loaderProcessIncludes w fuel data base_path processed =
        includesProcessIncludes w fuel data base_path processed := by
  intro fuel
  induction fuel with
  | zero => intro _ _ _; rfl
  | succ f ih =>
      intro data base_path processed
      simp only [loaderProcessIncludes, includesProcessIncludes]
      by_cases h : dictContains data "include" = false
      · simp only [if_pos h]
      · simp only [if_neg h]
        exact includeLoop_eq w _ _ (fun d bp pr => ih d bp pr) _ _ _ _ _

/-- C10: for every raw mapping, base path and in-progress set (and any
recursion budget), the two co-existing include-processing
implementations — `includes.process_includes` and
`loader._process_includes` — and their respective `_merge_config_data`
helpers return identical results: equal merged data and equal ordered
sources lists. -/
theorem process_includes_implementations_equivalent
    (w : World) (fuel : Nat) (data : RawDict) (base_path : String)
    (processed : List String) (b o : RawDict) :
    loaderProcessIncludes w fuel data base_path processed =
      includesProcessIncludes w fuel data base_path processed ∧
    loaderMergeConfigData b o = includesMergeConfigData b o :=
  ⟨processIncludes_eq w fuel data base_path processed,
    mergeConfigData_eq b o⟩

/-! ## C4: the environment overlay -/

/-- Looking a key up in a key-predicate filter of a dict: present with
its original value when the predicate holds for the key, absent
otherwise. -/
theorem dictGet_filter_keyPred (pred : String → Bool)
    (env : List (String × α)) (k : String) :
    dictGet (env.filter (fun p => pred p.1)) k =
      if pred k then dictGet env k else none := by
  induction env with
  | nil => simp [dictGet]
  | cons p rest ih =>
      obtain ⟨k', v'⟩ := p
      by_cases hk : k' = k
      · subst hk
        by_cases hp : pred k'
        · simp [List.filter_cons, hp, dictGet]
        · simp [List.filter_cons, hp, ih, dictGet]
      · by_cases hp : pred k'
        · simp [List.filter_cons, hp, dictGet, hk, ih]
        · simp [List.filter_cons, hp, dictGet, hk, ih]

theorem get_env_variables_context_get (env : List (String × String))
    (k : String) :
    dictGet (get_env_variables_context env) k =
      if allowedEnvNameStarts.any (fun s => strStartsWith k s) then
        dictGet env k
      else none := by
  unfold get_env_variables_context
  exact dictGet_filter_keyPred
    (fun n => allowedEnvNameStarts.any (fun s => strStartsWith n s)) env k

theorem get_env_variables_context_keys_nodup
    {env : List (String × String)} (h : (dictKeys env).Nodup) :
    (dictKeys (get_env_variables_context env)).Nodup := by
  unfold get_env_variables_context dictKeys
  exact h.sublist ((List.filter_sublist env).map Prod.fst)

/-- Every successful `load_config` result is the environment overlay
applied to some intermediate config: the overlay is the final step of
every branch (no sources, single source, multiple sources). -/
theorem load_config_ok_overlay {w : World} {cwd : String}
    {defaultCfg cfg : ToolbeltConfig} {config_paths : Option (List String)}
    (hok : load_config w cwd defaultCfg config_paths = .ok cfg) :
    ∃ c, cfg = applyEnvOverlay w.env c := by
  unfold load_config at hok
  simp only [] at hok
  repeat' split at hok
  all_goals
    first
    | exact Except.noConfusion hok
    | (injection hok with hok; exact ⟨_, hok.symm⟩)

theorem applyEnvOverlay_env_wins {env : List (String × String)}
    (c : ToolbeltConfig) {k : String} {v : String}
    (henv : (dictKeys env).Nodup)
    (hv : dictGet (get_env_variables_context env) k = some v) :
    dictGet (applyEnvOverlay env c).vars k = some v := by
  unfold applyEnvOverlay
  by_cases he : (get_env_variables_context env).isEmpty
  · rw [List.isEmpty_iff] at he
    rw [he] at hv
    exact Option.noConfusion hv
  · simp only [if_neg he]
    rw [dictGet_update c.vars (get_env_variables_context env) k
      (get_env_variables_context_keys_nodup henv), hv]
    rfl

/-- C4: for every final merged configuration (any world, any branch of
`load_config` — no sources, one source, many sources), an environment
variable whose name begins with an allow-listed prefix string overrides
a same-named variable from any config file, and an environment variable
matching no allow-listed prefix is entirely absent from the overlay
mapping. -/
theorem env_overlay_final_precedence
    (w : World) (cwd : String) (defaultCfg cfg : ToolbeltConfig)
    (config_paths : Option (List String))
    (henv : (dictKeys w.env).Nodup)
    (hok : load_config w cwd defaultCfg config_paths = .ok cfg) :
    (∀ k v, dictGet w.env k = some v →
       (∃ s ∈ allowedEnvNameStarts, strStartsWith k s = true) →
       dictGet cfg.vars k = some v) ∧
    (∀ k, (∀ s ∈ allowedEnvNameStarts, strStartsWith k s = false) →
       dictGet (get_env_variables_context w.env) k = none) := by
  obtain ⟨c, rfl⟩ := load_config_ok_overlay hok
  constructor
  · intro k v hkv hallow
    apply applyEnvOverlay_env_wins c henv
    rw [get_env_variables_context_get, if_pos, hkv]
    obtain ⟨s, hs, hstart⟩ := hallow
    exact List.any_eq_true.mpr ⟨s, hs, hstart⟩
  · intro k hnone
    rw [get_env_variables_context_get, if_neg]
    simp only [List.any_eq_true, not_exists]
    intro s hs
    rw [hnone s hs.1] at hs
    exact Bool.false_ne_true hs.2

/-- Witness for C4: with environment `TB_X=env, HOME=h` and a config
declaring variable `TB_X=file`, the loaded config maps `TB_X` to the
environment's value, and the out-of-prefix name `HOME` is absent from
the overlay. -/
theorem env_overlay_final_precedence_witness :
    dictGet (applyEnvOverlay [("TB_X", "env"), ("HOME", "h")]
      { vars := [("TB_X", "file")] }).vars "TB_X" = some "env" ∧
    dictGet
      (get_env_variables_context [("TB_X", "env"), ("HOME", "h")])
      "HOME" = none := by
  have h := env_overlay_final_precedence
    { env := [("TB_X", "env"), ("HOME", "h")] } ""
    { vars := [("TB_X", "file")] }
    (applyEnvOverlay [("TB_X", "env"), ("HOME", "h")]
      { vars := [("TB_X", "file")] })
    (some []) (by decide) rfl
  exact ⟨h.1 "TB_X" "env" rfl ⟨"TB_", by decide, by decide⟩,
    h.2 "HOME" (by decide)⟩

/-! ## C9: a YAML parse failure is fatal and wrapped -/

/-- C9: when the YAML raw load of a top-level config file fails,
`load_yaml_config` raises an error whose message contains the failing
file's path and which wraps the underlying parse error as its cause —
it never returns a partial configuration. -/
theorem load_yaml_config_wraps_parse_error
    (w : World) (config_path : String) (e : String)
    (hf : dictGet w.fs config_path = some (.error e)) :
    ∃ err : PyError, load_yaml_config w config_path = .error err ∧
      err.cause = some e ∧
      ∃ pre post, err.msg = pre ++ config_path ++ post := by
  refine ⟨{ msg := "Error loading YAML config file " ++ config_path ++
      "; " ++ e, cause := some e }, ?_, rfl,
    "Error loading YAML config file ", "; " ++ e, ?_⟩
  · unfold load_yaml_config
    rw [hf]
  · rw [String.append_assoc]

/-- Witness for C9 at a concrete broken file. -/
theorem load_yaml_config_wraps_parse_error_witness :
    ∃ err : PyError,
      load_yaml_config { fs := [("bad.yaml", .error "ScannerError")] }
        "bad.yaml" = .error err ∧
      err.cause = some "ScannerError" ∧
      ∃ pre post, err.msg = pre ++ "bad.yaml" ++ post :=
  load_yaml_config_wraps_parse_error
    { fs := [("bad.yaml", .error "ScannerError")] } "bad.yaml"
    "ScannerError" rfl

/-! ## Unfolding lemmas for the include-processing loop -/

theorem loaderProcessIncludes_no_include {w : World} {data : RawDict}
    {base_path : String} {processed : List String} (fuel : Nat)
    (h : dictContains data "include" = false) :
    loaderProcessIncludes w (fuel + 1) data base_path processed =
      .ok (data, []) := by
  unfold loaderProcessIncludes
  rw [if_pos h]

theorem loaderProcessIncludes_include {w : World} {data : RawDict}
    {base_path : String} {processed : List String} {iv : RawValue}
    (fuel : Nat) (h : dictGet data "include" = some iv) :
    loaderProcessIncludes w (fuel + 1) data base_path processed =
      loaderIncludeLoop w
        (fun d bp pr => loaderProcessIncludes w fuel d bp pr)
        (normalizeIncludes iv) base_path processed
        (dictErase data "include") [] := by
  simp only [loaderProcessIncludes]
  rw [if_neg (by simp [dictContains_of_get_some h]), h]
  rfl

/-- A single include entry that resolves, is not circular, exists (or is
a package reference), has a supported suffix, raw-loads, recursively
processes and merges successfully: the loop returns the merged data and
the nested sources followed by the resolved path. -/
theorem loaderIncludeLoop_single_ok {w : World}
    {recurse : RawDict → String → List String →
      Except String (RawDict × List String)}
    {ref p base_path : String} {processed : List String}
    {merged : RawDict} {sources : List String} {E nested : RawDict}
    {nestedSources : List String} {M : RawDict}
    (hres : resolve_config_reference w ref base_path = some p)
    (hnc : processed.contains p = false)
    (hfs : dictGet w.fs p = some (.ok E))
    (hsuf : pathSuffix p = ".yaml" ∨ pathSuffix p = ".yml" ∨
      pathSuffix p = ".py")
    (hrec : recurse E (pathParent p) (p :: processed) =
      .ok (nested, nestedSources))
    (hm : loaderMergeConfigData merged nested = .ok M) :
    loaderIncludeLoop w recurse [.vStr ref] base_path processed merged
      sources = .ok (M, sources ++ nestedSources ++ [p]) := by
  have hex : pathExists w p = true := by
    unfold pathExists
    simp [hfs]
  simp only [loaderIncludeLoop]
  rw [hres]
  simp only [hnc, Bool.false_eq_true, if_false]
  rw [if_neg (by simp [hex]), if_pos hsuf, hfs]
  simp only []
  rw [hrec]
  simp only []
  rw [hm]

/-- A single include entry that resolves to a path already in the
in-progress set is skipped: circular back-references are dropped. -/
theorem loaderIncludeLoop_single_cycle {w : World}
    {recurse : RawDict → String → List String →
      Except String (RawDict × List String)}
    {ref p base_path : String} {processed : List String}
    {merged : RawDict} {sources : List String}
    (hres : resolve_config_reference w ref base_path = some p)
    (hc : processed.contains p = true) :
    loaderIncludeLoop w recurse [.vStr ref] base_path processed merged
      sources = .ok (merged, sources) := by
  simp only [loaderIncludeLoop]
  rw [hres]
  simp only [hc, if_true]

/-- A single include entry pointing at a nonexistent non-package path,
or at a file with an unsupported suffix, is skipped: the loop returns
its accumulator unchanged. -/
theorem loaderIncludeLoop_single_skip {w : World}
    {recurse : RawDict → String → List String →
      Except String (RawDict × List String)}
    {ref p base_path : String} {processed : List String}
    {merged : RawDict} {sources : List String}
    (hres : resolve_config_reference w ref base_path = some p)
    (hnc : processed.contains p = false)
    (hskip : (strStartsWith ref "@" = false ∧ pathExists w p = false) ∨
      (pathSuffix p ≠ ".yaml" ∧ pathSuffix p ≠ ".yml" ∧
        pathSuffix p ≠ ".py")) :
    loaderIncludeLoop w recurse [.vStr ref] base_path processed merged
      sources = .ok (merged, sources) := by
  simp only [loaderIncludeLoop]
  rw [hres]
  simp only [hnc, Bool.false_eq_true, if_false]
  rcases hskip with ⟨hat, hex⟩ | ⟨h1, h2, h3⟩
  · rw [if_pos ⟨by simp [hat], hex⟩]
  · by_cases hex : pathExists w p = false ∧ strStartsWith ref "@" = false
    · rw [if_pos ⟨by simp [hex.2], hex.1⟩]
    · rw [if_neg (by
        intro hcon
        exact hex ⟨hcon.2, by simpa using hcon.1⟩),
        if_neg (by simp [h1, h2, h3])]

/-! ## Path lemmas -/

theorem dropWhile_append_of_all {p : α → Bool} {a b : List α}
    (h : ∀ c ∈ a, p c = true) :
    (a ++ b).dropWhile p = b.dropWhile p := by
  induction a with
  | nil => rfl
  | cons c rest ih =>
      simp only [List.cons_append, List.dropWhile_cons, h c (by simp)]
      exact ih (fun x hx => h x (by simp [hx]))

theorem takeWhile_append_of_all {p : α → Bool} {a b : List α}
    (h : ∀ c ∈ a, p c = true) :
    (a ++ b).takeWhile p = a ++ b.takeWhile p := by
  induction a with
  | nil => rfl
  | cons c rest ih =>
      simp only [List.cons_append, List.takeWhile_cons, h c (by simp)]
      simp [ih (fun x hx => h x (by simp [hx]))]

theorem dropWhile_eq_nil_of_all {p : α → Bool} {a : List α}
    (h : ∀ c ∈ a, p c = true) : a.dropWhile p = [] := by
  have := dropWhile_append_of_all (b := ([] : List α)) h
  simpa using this

theorem takeWhile_eq_self_of_all {p : α → Bool} {a : List α}
    (h : ∀ c ∈ a, p c = true) : a.takeWhile p = a := by
  have := takeWhile_append_of_all (b := ([] : List α)) h
  simpa using this

/-- Joining a slash-free name onto a directory and taking the parent
gives back the directory. -/
theorem pathParent_join (d n : String)
    (hn : ∀ c ∈ n.data, c ≠ '/') : pathParent (pathJoin d n) = d := by
  have hall : ∀ c ∈ n.data.reverse, decide (c ≠ '/') = true := by
    intro c hc
    simp [hn c (List.mem_reverse.mp hc)]
  unfold pathJoin pathParent
  by_cases hd : d = ""
  · subst hd
    rw [if_pos rfl, dropWhile_eq_nil_of_all hall]
    rfl
  · rw [if_neg hd]
    have hdata : (d ++ "/" ++ n).data = d.data ++ '/' :: n.data := by
      rw [String.data_append, String.data_append]
      simp
    rw [hdata]
    rw [show (d.data ++ '/' :: n.data).reverse =
      n.data.reverse ++ '/' :: d.data.reverse by simp]
    rw [dropWhile_append_of_all hall]
    simp only [List.dropWhile_cons]
    norm_num

/-- Joining a slash-free name onto a directory does not change the
suffix. -/
theorem pathSuffix_join (d n : String)
    (hn : ∀ c ∈ n.data, c ≠ '/') :
    pathSuffix (pathJoin d n) = pathSuffix n := by
  have hall : ∀ c ∈ n.data.reverse, decide (c ≠ '/') = true := by
    intro c hc
    simp [hn c (List.mem_reverse.mp hc)]
  unfold pathJoin pathSuffix
  by_cases hd : d = ""
  · rw [if_pos hd]
  · rw [if_neg hd]
    apply congrArg suffixOfName
    have hdata : (d ++ "/" ++ n).data = d.data ++ '/' :: n.data := by
      rw [String.data_append, String.data_append]
      simp
    rw [hdata]
    rw [show (d.data ++ '/' :: n.data).reverse =
      n.data.reverse ++ '/' :: d.data.reverse by simp]
    rw [takeWhile_append_of_all hall,
      show List.takeWhile (fun c => decide (c ≠ '/'))
        ('/' :: d.data.reverse) = [] from by simp,
      List.append_nil, takeWhile_eq_self_of_all hall]

/-- Joining two different slash-free names onto the same directory gives
different paths. -/
theorem pathJoin_ne (d : String) {n₁ n₂ : String} (h : n₁ ≠ n₂) :
    pathJoin d n₁ ≠ pathJoin d n₂ := by
  unfold pathJoin
  by_cases hd : d = ""
  · simpa [hd] using h
  · rw [if_neg hd, if_neg hd]
    intro heq
    apply h
    have hdata := congrArg String.data heq
    rw [String.data_append, String.data_append] at hdata
    exact String.ext (List.append_cancel_left hdata)

/-! ## Parser lemmas -/

/-- The modelled parser always produces an empty `sources` list (spec
section 4.4: sources are populated by the caller). -/
theorem parse_sources_nil {raw : RawDict} {c : ToolbeltConfig}
    (h : parse_toolbelt_config raw = .ok c) : c.sources = [] := by
  unfold parse_toolbelt_config at h
  simp only [bind, Except.bind] at h
  repeat' split at h
  all_goals
    first
    | exact Except.noConfusion h
    | (injection h with h; rw [← h])

/-- Wrapping a string-to-string mapping as raw YAML values. -/
def wrapVars (a : List (String × String)) : List (String × RawValue) :=
  a.map (fun p => (p.1, RawValue.vStr p.2))

theorem parseVariables_wrap (a : List (String × String)) :
    parseVariables (wrapVars a) = .ok a := by
  induction a with
  | nil => rfl
  | cons p rest ih =>
      obtain ⟨k, v⟩ := p
      simp only [wrapVars, List.map_cons, parseVariables] at ih ⊢
      rw [ih]
      rfl

theorem dictSet_wrap (a : List (String × String)) (k v : String) :
    dictSet (wrapVars a) k (.vStr v) = wrapVars (dictSet a k v) := by
  induction a with
  | nil => rfl
  | cons p rest ih =>
      obtain ⟨k', v'⟩ := p
      by_cases hk : k' = k
      · simp [wrapVars, dictSet, hk]
      · simp [wrapVars, dictSet, hk, ih]
        simpa [wrapVars] using ih

theorem dictUpdate_wrap (a b : List (String × String)) :
    dictUpdate (wrapVars a) (wrapVars b) = wrapVars (dictUpdate a b) := by
  induction b generalizing a with
  | nil => rfl
  | cons p rest ih =>
      obtain ⟨k, v⟩ := p
      simp only [wrapVars, dictUpdate, List.map_cons, List.foldl_cons]
      rw [show dictSet (List.map (fun p => (p.1, RawValue.vStr p.2)) a) k
        (RawValue.vStr v) = wrapVars (dictSet a k v) from dictSet_wrap a k v]
      exact ih (dictSet a k v)

theorem dictGet_wrap (a : List (String × String)) (k : String) :
    dictGet (wrapVars a) k = (dictGet a k).map RawValue.vStr := by
  induction a with
  | nil => rfl
  | cons p rest ih =>
      obtain ⟨k', v'⟩ := p
      by_cases hk : k' = k
      · simp [wrapVars, dictGet, hk]
      · simp [wrapVars, dictGet, hk]
        simpa [wrapVars] using ih

/-- Parsing a raw mapping that declares only `variables` (all strings)
yields a config with exactly those variables and empty defaults. -/
theorem parse_vars_only (a : List (String × String)) :
    parse_toolbelt_config [("variables", .vDict (wrapVars a))] =
      .ok { sources := [], profiles := [], global_exclude_patterns := []
            vars := a } := by
  have h1 : dictGet [("variables", RawValue.vDict (wrapVars a))]
      "profiles" = none := by simp [dictGet]
  have h2 : dictGet [("variables", RawValue.vDict (wrapVars a))]
      "global_exclude_patterns" = none := by simp [dictGet]
  have h3 : dictGet [("variables", RawValue.vDict (wrapVars a))]
      "variables" = some (RawValue.vDict (wrapVars a)) := by simp [dictGet]
  unfold parse_toolbelt_config
  simp only [bind, Except.bind, h1, h2, h3, parseVariables_wrap]

/-- The raw merge of two variables-only mappings. -/
theorem mergeConfigData_vars_only (x y : List (String × RawValue)) :
    loaderMergeConfigData [("variables", .vDict x)]
      [("variables", .vDict y)] =
      .ok [("variables", .vDict (dictUpdate x y))] := by
  unfold loaderMergeConfigData loaderMergeLoop loaderMergeStep
  simp [dictContains, dictGet, dictSet]
  rfl

/-! ## C6: an included file is the override layer -/

/-- C6: during include processing the included file's merged data is
applied as the override layer over the including file's own data (the
accumulator formed by stripping the `include` key): the returned merged
data is exactly `_merge_config_data(stripped_including, included)`, and
for a key declared in both — a non-special key wholesale, and in
particular a variable name defined in both files — the included file's
value wins under the raw-data merge rule. -/
theorem included_file_overrides
    (w : World) (fuel : Nat) (D E M : RawDict)
    (base_path ref p : String)
    (hinc : dictGet D "include" = some (.vList [.vStr ref]))
    (hres : resolve_config_reference w ref base_path = some p)
    (hfs : dictGet w.fs p = some (.ok E))
    (hEnoinc : dictContains E "include" = false)
    (hsuf : pathSuffix p = ".yaml" ∨ pathSuffix p = ".yml" ∨
      pathSuffix p = ".py")
    (hEkeys : (dictKeys E).Nodup)
    (hm : loaderMergeConfigData (dictErase D "include") E = .ok M) :
    loaderProcessIncludes w (fuel + 1 + 1) D base_path [] =
      .ok (M, [p]) ∧
    (∀ k v, k ≠ "profiles" → k ≠ "global_exclude_patterns" →
       k ≠ "variables" → dictGet E k = some v → dictGet M k = some v) ∧
    (∀ dD dE q vq, dictGet D "variables" = some (.vDict dD) →
       dictGet E "variables" = some (.vDict dE) →
       (dictKeys dE).Nodup → dictGet dE q = some vq →
       dictGet M "variables" = some (.vDict (dictUpdate dD dE)) ∧
       dictGet (dictUpdate dD dE) q = some vq) := by
  refine ⟨?_, ?_, ?_⟩
  · rw [loaderProcessIncludes_include (fuel + 1) hinc]
    have hrec : loaderProcessIncludes w (fuel + 1) E (pathParent p)
        (p :: []) = .ok (E, []) :=
      loaderProcessIncludes_no_include fuel hEnoinc
    rw [show normalizeIncludes (.vList [.vStr ref]) = [.vStr ref] from rfl,
      loaderIncludeLoop_single_ok hres
        (rfl : ([] : List String).contains p = false) hfs hsuf hrec hm]
    simp
  · intro k v hk1 hk2 hk3 hv
    obtain ⟨m1, m2, hb1, hstep, hmk⟩ := loaderMerge_decompose hEkeys hm hv
    unfold loaderMergeStep at hstep
    rw [if_neg (by simp [hk1]), if_neg (by simp [hk2]),
      if_neg (by simp [hk3])] at hstep
    injection hstep with hstep
    rw [hmk, ← hstep, dictGet_set_self]
  · intro dD dE q vq hD hE hdE hq
    obtain ⟨m1, m2, hb1, hstep, hmk⟩ := loaderMerge_decompose hEkeys hm hE
    have hg1 : dictGet m1 "variables" = some (.vDict dD) := by
      rw [hb1, dictGet_erase, if_neg (by decide), hD]
    have hc : dictContains m1 "variables" = true :=
      dictContains_of_get_some hg1
    unfold loaderMergeStep at hstep
    rw [if_neg (by simp), if_neg (by simp), if_pos ⟨rfl, hc⟩, hg1] at hstep
    simp only [] at hstep
    injection hstep with hstep
    constructor
    · rw [hmk, ← hstep, dictGet_set_self]
    · rw [dictGet_update dD dE q hdE, hq]
      rfl

/-- Witness for C6: a concrete file including `inc.yaml`, where both
declare key `x`; the included file's value wins. -/
theorem included_file_overrides_witness :
    loaderProcessIncludes
      { fs := [("inc.yaml", .ok [("x", RawValue.vStr "e")])] } 2
      [("include", RawValue.vList [RawValue.vStr "inc.yaml"]),
       ("x", RawValue.vStr "d")] "" [] =
      .ok ([("x", RawValue.vStr "e")], ["inc.yaml"]) ∧
    dictGet [("x", RawValue.vStr "e")] "x" = some (.vStr "e") := by
  have h := included_file_overrides
    { fs := [("inc.yaml", .ok [("x", RawValue.vStr "e")])] } 0
    [("include", RawValue.vList [RawValue.vStr "inc.yaml"]),
     ("x", RawValue.vStr "d")]
    [("x", RawValue.vStr "e")] [("x", RawValue.vStr "e")]
    "" "inc.yaml" "inc.yaml"
    rfl rfl rfl rfl (Or.inl rfl) (by simp [dictKeys]) rfl
  exact ⟨h.1, h.2.1 "x" (.vStr "e") (by decide) (by decide) (by decide) rfl⟩

/-! ## C7: broken includes are skipped, never fatal -/

/-- C7: an include entry that resolves to a nonexistent non-package
path, or to a file with the unsupported suffix `.json`, does not raise:
include processing returns the including file's own data (stripped of
the `include` key) with no contributed sources, so every one of its own
declared keys — its variables and profiles in particular — is still
present in the returned merged data. -/
theorem broken_include_nonfatal
    (w : World) (fuel : Nat) (D : RawDict) (base_path ref p : String)
    (hinc : dictGet D "include" = some (.vList [.vStr ref]))
    (hres : resolve_config_reference w ref base_path = some p)
    (hskip : (strStartsWith ref "@" = false ∧ pathExists w p = false) ∨
      pathSuffix p = ".json") :
    loaderProcessIncludes w (fuel + 1) D base_path [] =
      .ok (dictErase D "include", []) ∧
    (∀ k v, k ≠ "include" → dictGet D k = some v →
       dictGet (dictErase D "include") k = some v) := by
  constructor
  · rw [loaderProcessIncludes_include fuel hinc,
      show normalizeIncludes (.vList [.vStr ref]) = [.vStr ref] from rfl]
    apply loaderIncludeLoop_single_skip hres
      (rfl : ([] : List String).contains p = false)
    rcases hskip with h | h
    · exact Or.inl h
    · refine Or.inr ⟨?_, ?_, ?_⟩ <;> rw [h] <;> decide
  · intro k v hk hv
    rw [dictGet_erase, if_neg hk, hv]

/-- Witness for C7: an include of a nonexistent `missing.yaml` is
skipped and the including file's own variable mapping survives. -/
theorem broken_include_nonfatal_witness :
    loaderProcessIncludes ({} : World) 1
      [("include", RawValue.vList [RawValue.vStr "missing.yaml"]),
       ("variables", RawValue.vDict [("x", RawValue.vStr "1")])] "" [] =
      .ok ([("variables", RawValue.vDict [("x", RawValue.vStr "1")])],
        []) ∧
    dictGet
      (dictErase
        [("include", RawValue.vList [RawValue.vStr "missing.yaml"]),
         ("variables", RawValue.vDict [("x", RawValue.vStr "1")])]
        "include") "variables" =
      some (.vDict [("x", RawValue.vStr "1")]) := by
  have h := broken_include_nonfatal ({} : World) 0
    [("include", RawValue.vList [RawValue.vStr "missing.yaml"]),
     ("variables", RawValue.vDict [("x", RawValue.vStr "1")])]
    "" "missing.yaml" "missing.yaml" rfl rfl (Or.inl ⟨rfl, rfl⟩)
  exact ⟨h.1, h.2 "variables" (.vDict [("x", RawValue.vStr "1")])
    (by decide) rfl⟩

/-! ## C3: included sources come before the including file -/

/-- C3: loading `main.yaml`, which includes `base.yaml` and nothing
else, yields a config whose `sources` equal
`[str(base.yaml), str(main.yaml)]`: the included file before the
including one, the loaded file's own path appended last. -/
theorem sources_included_before_including
    (dir : String) (mainData baseData M : RawDict) (cfg : ToolbeltConfig)
    (hinc : dictGet mainData "include" =
      some (.vList [.vStr "base.yaml"]))
    (hnoincB : dictContains baseData "include" = false)
    (hm : loaderMergeConfigData (dictErase mainData "include") baseData =
      .ok M)
    (hparse : parse_toolbelt_config M = .ok cfg) :
    load_yaml_config
      { fs := [(pathJoin dir "main.yaml", .ok mainData),
               (pathJoin dir "base.yaml", .ok baseData)] }
      (pathJoin dir "main.yaml") =
      .ok { cfg with sources := [pathJoin dir "base.yaml",
                                 pathJoin dir "main.yaml"] } := by
  have hne : pathJoin dir "main.yaml" ≠ pathJoin dir "base.yaml" :=
    pathJoin_ne dir (by decide)
  set w : World :=
    { fs := [(pathJoin dir "main.yaml", .ok mainData),
             (pathJoin dir "base.yaml", .ok baseData)] } with hw
  have hgm : dictGet w.fs (pathJoin dir "main.yaml") =
      some (.ok mainData) := by
    simp [hw, dictGet]
  have hgb : dictGet w.fs (pathJoin dir "base.yaml") =
      some (.ok baseData) := by
    simp [hw, dictGet, hne]
  have hres : resolve_config_reference w "base.yaml" dir =
      some (pathJoin dir "base.yaml") := by
    simp [resolve_config_reference, strStartsWith]
  have hsuf : pathSuffix (pathJoin dir "base.yaml") = ".yaml" ∨
      pathSuffix (pathJoin dir "base.yaml") = ".yml" ∨
      pathSuffix (pathJoin dir "base.yaml") = ".py" :=
    Or.inl (by rw [pathSuffix_join dir _ (by decide)]; rfl)
  have hlen : w.fs.length + 1 = 1 + 1 + 1 := by simp [hw]
  have hrec : (fun d bp pr => loaderProcessIncludes w (1 + 1) d bp pr)
      baseData (pathParent (pathJoin dir "base.yaml"))
      (pathJoin dir "base.yaml" :: []) = .ok (baseData, []) :=
    loaderProcessIncludes_no_include 1 hnoincB
  have hproc : loaderProcessIncludes w (w.fs.length + 1) mainData
      (pathParent (pathJoin dir "main.yaml")) [] =
      .ok (M, [pathJoin dir "base.yaml"]) := by
    rw [hlen, pathParent_join dir _ (by decide),
      loaderProcessIncludes_include (1 + 1) hinc,
      show normalizeIncludes (.vList [.vStr "base.yaml"]) =
        [.vStr "base.yaml"] from rfl,
      loaderIncludeLoop_single_ok hres
        (rfl : ([] : List String).contains (pathJoin dir "base.yaml") =
          false) hgb hsuf hrec hm]
    simp
  unfold load_yaml_config
  rw [hgm]
  simp only []
  rw [hproc]
  simp only []
  rw [hparse]
  simp only []
  rw [parse_sources_nil hparse]
  rfl

/-- Witness for C3 at a concrete pair of files. -/
theorem sources_included_before_including_witness :
    load_yaml_config
      { fs := [(pathJoin "proj" "main.yaml",
          .ok [("include", RawValue.vList [RawValue.vStr "base.yaml"])]),
        (pathJoin "proj" "base.yaml",
          .ok [("variables", RawValue.vDict (wrapVars [("x", "1")]))])] }
      (pathJoin "proj" "main.yaml") =
      .ok { sources := [pathJoin "proj" "base.yaml",
              pathJoin "proj" "main.yaml"]
            profiles := [], global_exclude_patterns := []
            vars := [("x", "1")] } := by
  have h := sources_included_before_including "proj"
    [("include", RawValue.vList [RawValue.vStr "base.yaml"])]
    [("variables", RawValue.vDict (wrapVars [("x", "1")]))]
    [("variables", RawValue.vDict (wrapVars [("x", "1")]))]
    { sources := [], profiles := [], global_exclude_patterns := []
      vars := [("x", "1")] }
    rfl rfl rfl (parse_vars_only [("x", "1")])
  exact h

/-! ## C5: an include cycle loads successfully -/

/-- C5: with `a.yaml` including `b.yaml` and `b.yaml` including
`a.yaml`, loading `a.yaml` completes without raising — the cyclic
back-reference is skipped through the in-progress set, which each
recursive branch receives as a copy — and every one of `a.yaml`'s own
top-level variables is present in the result (with `a`'s value: `a`'s
copy is re-applied over `b`'s layer inside the cycle). -/
theorem include_cycle_loads
    (dir : String) (A B : List (String × String))
    (hA : (dictKeys A).Nodup) (hB : (dictKeys B).Nodup) :
    load_yaml_config
      { fs := [(pathJoin dir "a.yaml", .ok
          [("include", RawValue.vList [RawValue.vStr "b.yaml"]),
           ("variables", RawValue.vDict (wrapVars A))]),
        (pathJoin dir "b.yaml", .ok
          [("include", RawValue.vList [RawValue.vStr "a.yaml"]),
           ("variables", RawValue.vDict (wrapVars B))])] }
      (pathJoin dir "a.yaml") =
      .ok { sources := [pathJoin dir "a.yaml", pathJoin dir "b.yaml",
              pathJoin dir "a.yaml"]
            profiles := [], global_exclude_patterns := []
            vars := dictUpdate A (dictUpdate B A) } ∧
    (∀ k v, dictGet A k = some v →
      dictGet (dictUpdate A (dictUpdate B A)) k = some v) := by
  have hne : pathJoin dir "a.yaml" ≠ pathJoin dir "b.yaml" :=
    pathJoin_ne dir (by decide)
  set aData : RawDict :=
    [("include", RawValue.vList [RawValue.vStr "b.yaml"]),
     ("variables", RawValue.vDict (wrapVars A))] with haData
  set bData : RawDict :=
    [("include", RawValue.vList [RawValue.vStr "a.yaml"]),
     ("variables", RawValue.vDict (wrapVars B))] with hbData
  set w : World :=
    { fs := [(pathJoin dir "a.yaml", .ok aData),
             (pathJoin dir "b.yaml", .ok bData)] } with hw
  have hga : dictGet w.fs (pathJoin dir "a.yaml") = some (.ok aData) := by
    simp [hw, dictGet]
  have hgb : dictGet w.fs (pathJoin dir "b.yaml") = some (.ok bData) := by
    simp [hw, dictGet, hne]
  have hresA : resolve_config_reference w "a.yaml" dir =
      some (pathJoin dir "a.yaml") := by
    simp [resolve_config_reference, strStartsWith]
  have hresB : resolve_config_reference w "b.yaml" dir =
      some (pathJoin dir "b.yaml") := by
    simp [resolve_config_reference, strStartsWith]
  have hsufA : pathSuffix (pathJoin dir "a.yaml") = ".yaml" ∨
      pathSuffix (pathJoin dir "a.yaml") = ".yml" ∨
      pathSuffix (pathJoin dir "a.yaml") = ".py" :=
    Or.inl (by rw [pathSuffix_join dir _ (by decide)]; rfl)
  have hsufB : pathSuffix (pathJoin dir "b.yaml") = ".yaml" ∨
      pathSuffix (pathJoin dir "b.yaml") = ".yml" ∨
      pathSuffix (pathJoin dir "b.yaml") = ".py" :=
    Or.inl (by rw [pathSuffix_join dir _ (by decide)]; rfl)
  -- innermost: `a.yaml` re-entered inside the branch; its include of
  -- `b.yaml` hits the in-progress set and is skipped
  have h0 : loaderProcessIncludes w (0 + 1) aData
      (pathParent (pathJoin dir "a.yaml"))
      (pathJoin dir "a.yaml" :: [pathJoin dir "b.yaml"]) =
      .ok ([("variables", RawValue.vDict (wrapVars A))], []) := by
    rw [loaderProcessIncludes_include 0
        (show dictGet aData "include" =
          some (RawValue.vList [RawValue.vStr "b.yaml"]) from rfl),
      show normalizeIncludes (.vList [.vStr "b.yaml"]) =
        [.vStr "b.yaml"] from rfl,
      pathParent_join dir _ (by decide),
      loaderIncludeLoop_single_cycle hresB (by simp [List.contains])]
    rfl
  -- middle: `b.yaml`, included from `a.yaml`
  have h1 : loaderProcessIncludes w (1 + 1) bData
      (pathParent (pathJoin dir "b.yaml")) [pathJoin dir "b.yaml"] =
      .ok ([("variables", RawValue.vDict
          (dictUpdate (wrapVars B) (wrapVars A)))],
        [pathJoin dir "a.yaml"]) := by
    rw [loaderProcessIncludes_include 1
        (show dictGet bData "include" =
          some (RawValue.vList [RawValue.vStr "a.yaml"]) from rfl),
      show normalizeIncludes (.vList [.vStr "a.yaml"]) =
        [.vStr "a.yaml"] from rfl,
      pathParent_join dir _ (by decide),
      loaderIncludeLoop_single_ok hresA
        (by simp [List.contains, hne]) hga hsufA h0
        (by
          rw [show dictErase bData "include" =
            [("variables", RawValue.vDict (wrapVars B))] from rfl]
          exact mergeConfigData_vars_only _ _)]
    simp
  -- top: `a.yaml` itself
  have htop : loaderProcessIncludes w (w.fs.length + 1) aData
      (pathParent (pathJoin dir "a.yaml")) [] =
      .ok ([("variables", RawValue.vDict
          (dictUpdate (wrapVars A) (dictUpdate (wrapVars B)
            (wrapVars A))))],
        [pathJoin dir "a.yaml", pathJoin dir "b.yaml"]) := by
    rw [show w.fs.length + 1 = 1 + 1 + 1 by simp [hw],
      loaderProcessIncludes_include (1 + 1)
        (show dictGet aData "include" =
          some (RawValue.vList [RawValue.vStr "b.yaml"]) from rfl),
      show normalizeIncludes (.vList [.vStr "b.yaml"]) =
        [.vStr "b.yaml"] from rfl,
      pathParent_join dir _ (by decide),
      loaderIncludeLoop_single_ok hresB
        (rfl : ([] : List String).contains (pathJoin dir "b.yaml") =
          false) hgb hsufB h1
        (by
          rw [show dictErase aData "include" =
            [("variables", RawValue.vDict (wrapVars A))] from rfl]
          exact mergeConfigData_vars_only _ _)]
    simp
  constructor
  · unfold load_yaml_config
    rw [hga]
    simp only []
    rw [htop]
    simp only []
    rw [dictUpdate_wrap, dictUpdate_wrap, parse_vars_only]
    rfl
  · intro k v hkv
    rw [dictGet_update A (dictUpdate B A) k (dictKeys_update_nodup hB),
      dictGet_update B A k hA, hkv]
    rfl

/-- Witness for C5 at concrete variable mappings. -/
theorem include_cycle_loads_witness :
    load_yaml_config
      { fs := [(pathJoin "proj" "a.yaml", .ok
          [("include", RawValue.vList [RawValue.vStr "b.yaml"]),
           ("variables", RawValue.vDict
             (wrapVars [("var_a", "value_a")]))]),
        (pathJoin "proj" "b.yaml", .ok
          [("include", RawValue.vList [RawValue.vStr "a.yaml"]),
           ("variables", RawValue.vDict
             (wrapVars [("var_b", "value_b")]))])] }
      (pathJoin "proj" "a.yaml") =
      .ok { sources := [pathJoin "proj" "a.yaml",
              pathJoin "proj" "b.yaml", pathJoin "proj" "a.yaml"]
            profiles := [], global_exclude_patterns := []
            vars := dictUpdate [("var_a", "value_a")]
              (dictUpdate [("var_b", "value_b")] [("var_a", "value_a")]) }
      ∧
    dictGet (dictUpdate [("var_a", "value_a")]
        (dictUpdate [("var_b", "value_b")] [("var_a", "value_a")]))
      "var_a" = some "value_a" := by
  have h := include_cycle_loads "proj" [("var_a", "value_a")]
    [("var_b", "value_b")] (by decide) (by decide)
  exact ⟨h.1, h.2 "var_a" "value_a" rfl⟩

/-! ## C8: source discovery -/

theorem pyprojectRefLoop_map (w : World) (cwd : String)
    (refs : List String) :
    pyprojectRefLoop w cwd (refs.map RawValue.vStr) =
      .ok (refs.filterMap (fun r =>
        match resolve_config_reference w r cwd with
        | some p =>
            if strStartsWith r "@" || pathExists w p then some p else none
        | none => none)) := by
  induction refs with
  | nil => rfl
  | cons r rest ih =>
      simp only [List.map_cons, pyprojectRefLoop, ih,
        List.filterMap_cons]
      cases resolve_config_reference w r cwd with
      | none => rfl
      | some p =>
          by_cases hif : strStartsWith r "@" || pathExists w p
          · simp only [hif, if_true]
            rfl
          · simp only [hif, Bool.false_eq_true, if_false]
            rfl

/-- C8: `find_config_sources` with an explicit path returns that path as
a single-element list when it exists and an empty list otherwise; with
no explicit path it returns the resolved pyproject `[tool.toolbelt]`
include list (skipping entries that fail to resolve or, for non-package
references, do not exist on disk) when that resolved list is non-empty;
and when the pyproject route yields nothing it returns the first
existing file among `toolbelt.yaml`, `toolbelt.yml`, `toolbelt.py` as a
single-element list, or an empty list if none exist. -/
theorem find_config_sources_semantics (w : World) (cwd : String) :
    (∀ p, find_config_sources w cwd (some p) =
       .ok (if pathExists w p then [p] else [])) ∧
    (∀ (tb : RawDict) (refs : List String),
       pathExists w (pathJoin cwd "pyproject.toml") = true →
       w.pyprojectToolbelt = some tb →
       tb ≠ [] →
       dictGet tb "include" = some (.vList (refs.map RawValue.vStr)) →
       refs.filterMap (fun r =>
           match resolve_config_reference w r cwd with
           | some p =>
               if strStartsWith r "@" || pathExists w p then some p
               else none
           | none => none) ≠ [] →
       find_config_sources w cwd none =
         .ok (refs.filterMap (fun r =>
           match resolve_config_reference w r cwd with
           | some p =>
               if strStartsWith r "@" || pathExists w p then some p
               else none
           | none => none))) ∧
    (loadFromPyprojectIncludes w cwd = .ok [] →
       find_config_sources w cwd none =
         .ok (if pathExists w (pathJoin cwd "toolbelt.yaml") then
             [pathJoin cwd "toolbelt.yaml"]
           else if pathExists w (pathJoin cwd "toolbelt.yml") then
             [pathJoin cwd "toolbelt.yml"]
           else if pathExists w (pathJoin cwd "toolbelt.py") then
             [pathJoin cwd "toolbelt.py"]
           else [])) := by
  refine ⟨fun p => rfl, ?_, ?_⟩
  · intro tb refs hpe htb htbne hginc hresne
    unfold find_config_sources loadFromPyprojectIncludes
    rw [if_neg (by simp [hpe]), htb]
    simp only []
    rw [if_neg (by
        push_neg
        exact ⟨by simp [List.isEmpty_iff, htbne],
          by simp [dictContains_of_get_some hginc]⟩),
      hginc]
    simp only []
    rw [pyprojectRefLoop_map]
    simp only []
    rw [if_neg (fun hcon => hresne (List.isEmpty_iff.mp hcon))]
  · intro hp
    unfold find_config_sources
    rw [hp]
    simp only [List.isEmpty_nil, if_true]
    rfl

/-- Witness for C8: an explicit nonexistent path gives `[]`; with a
pyproject declaring two includes of which only `cfg.yaml` exists, the
resolved singleton list is returned. -/
theorem find_config_sources_semantics_witness :
    find_config_sources
      { fs := [("cfg.yaml", .ok [])]
        extraFiles := ["pyproject.toml"]
        pyprojectToolbelt := some [("include", RawValue.vList
          [RawValue.vStr "cfg.yaml", RawValue.vStr "missing.yaml"])] }
      "" (some "explicit.yaml") = .ok [] ∧
    find_config_sources
      { fs := [("cfg.yaml", .ok [])]
        extraFiles := ["pyproject.toml"]
        pyprojectToolbelt := some [("include", RawValue.vList
          [RawValue.vStr "cfg.yaml", RawValue.vStr "missing.yaml"])] }
      "" none = .ok ["cfg.yaml"] := by
  have h := find_config_sources_semantics
    { fs := [("cfg.yaml", .ok [])]
      extraFiles := ["pyproject.toml"]
      pyprojectToolbelt := some [("include", RawValue.vList
        [RawValue.vStr "cfg.yaml", RawValue.vStr "missing.yaml"])] } ""
  refine ⟨(h.1 "explicit.yaml").trans rfl, ?_⟩
  have h2 := h.2.1
    [("include", RawValue.vList
      [RawValue.vStr "cfg.yaml", RawValue.vStr "missing.yaml"])]
    ["cfg.yaml", "missing.yaml"] rfl rfl (by simp) rfl (by decide)
  exact h2.trans rfl

end Toolbelt
